import Mathlib

/-!
# Verification of the `ini` bash loadable builtin (src/ini.c)

A shallow embedding of `src/ini.c` from the bash-ini-builtin repository.
The builtin consumes (section, key, value) events produced by the external
`inih` tokenizer and binds them into bash associative arrays:

* a table of contents (TOC) array mapping each INI section name to `"true"`,
* one array `<TOC>_<section>` per section mapping its keys to values.

The parts of the program living outside `src/` (bash's variable registry,
`legal_identifier`, `legal_number`, inih's event driver, libc's `memccpy`)
are modelled from the repository's specification and from the documented
contracts of those collaborators; each such definition says so in its
doc comment.
-/

namespace BashIni

/-! ## C strings and `memccpy` (libc model)

The handler builds the derived section-variable name in a `malloc`'d
buffer using three `memccpy` calls (src/ini.c lines 53-73).  We model
bytes as `Char`, the NUL terminator as `nulChar`, and a C string as the
character data up to (and excluding) the first NUL. -/

def nulChar : Char := Char.ofNat 0

/-- The characters of `s` visible to C string functions: everything up to
the first NUL byte. -/
def cstrChars (s : String) : List Char := s.data.takeWhile (fun c => c != nulChar)

/-- `strlen`: length of the C string. -/
def strlen (s : String) : Nat := (cstrChars s).length

/-- The bytes read by a copy of the C string `s` including its terminator. -/
def cstrBytes (s : String) : List Char := cstrChars s ++ [nulChar]

/-- `s` contains no NUL byte, i.e. it is faithfully representable as a
C string. -/
def nulFree (s : String) : Bool := !s.data.contains nulChar

/-- Model of `memccpy(dest, src, c, n)` restricted to what it reads from
`src`: the list of bytes copied (stopping after the first occurrence of
`c`, copying at most `n` bytes) together with a flag telling whether `c`
was found within the first `n` bytes (i.e. whether the C call returns a
non-NULL pointer). -/
def memccpyTake : List Char → Char → Nat → List Char × Bool
  | _, _, 0 => ([], false)
  | [], _, _ + 1 => ([], false)
  | b :: bs, c, n + 1 =>
    if b = c then ([b], true)
    else
      let r := memccpyTake bs c n
      (b :: r.1, r.2)

/-- Writing `bytes` into a buffer at offset `off` (the effect of `memccpy`
on its destination, given the copied bytes). -/
def writeAt (buf : List Char) (off : Nat) (bytes : List Char) : List Char :=
  buf.take off ++ bytes ++ buf.drop (off + bytes.length)

/-- One `memccpy(dst + off, src, '\0', n)` call together with the NULL
check on its result: `none` when the terminator is not found within `n`
bytes (the C call returns NULL); otherwise the updated buffer and the
offset one past the copied terminator (the returned pointer `p`, as an
offset into the buffer). -/
def memccpyInto (buf : List Char) (off : Nat) (src : List Char) (n : Nat) :
    Option (List Char × Nat) :=
  let r := memccpyTake src nulChar n
  if r.2 then some (writeAt buf off r.1, off + r.1.length) else none

/-- Translation of src/ini.c lines 53-73: the derived section variable
name `<TOC>_<section>` is built in a buffer of size
`strlen(toc) + strlen(section) + strlen("_") + 1` by three `memccpy`
calls; a call that fails to find the source terminator in the
remaining space makes the handler report "Unable to create section name"
and fail (modelled as `none`).  `junk` gives the indeterminate initial
contents of the `malloc`'d buffer; pointer arithmetic is tracked as
buffer offsets, with `sec_end - p + 2 = sec_size + 1 - p`. -/
def buildSecVarName (junk : Nat → Char) (toc sectionName : String) : Option String :=
  let sec_size : Nat := strlen toc + strlen sectionName + strlen "_" + 1
  -- p = memccpy(sec_var_name, toc_var_name, '\0', sec_size)
  match memccpyInto ((List.range sec_size).map junk) 0 (cstrBytes toc) sec_size with
  | none => none
  | some (buf1, p1) =>
    -- p = memccpy(p - 1, sep, '\0', sec_end - p + 2)
    match memccpyInto buf1 (p1 - 1) (cstrBytes "_") (sec_size + 1 - p1) with
    | none => none
    | some (buf2, p2) =>
      -- p = memccpy(p - 1, section, '\0', sec_end - p + 2)
      match memccpyInto buf2 (p2 - 1) (cstrBytes sectionName) (sec_size + 1 - p2) with
      | none => none
      | some (buf3, _) => some (String.mk (buf3.takeWhile (fun c => c != nulChar)))

/-! ## Bash collaborator functions

These live in bash itself, not in `src/`; they are modelled from the
repository's specification. -/

/-- Modelled from the spec: the host identifier grammar — "letters,
digits, underscore; not starting with a digit" (and nonempty), bash's
`legal_identifier`. -/
def legal_identifier (s : String) : Bool :=
  match s.data with
  | [] => false
  | c :: cs => (c.isAlpha || c == '_') && cs.all (fun d => d.isAlphanum || d == '_')

/-- Digit-string value accumulator (base 10). -/
def digitsToNat (acc : Nat) : List Char → Option Nat
  | [] => some acc
  | c :: cs => if c.isDigit then digitsToNat (acc * 10 + (c.toNat - 48)) cs else none

/-- Modelled from the spec: the descriptor argument must parse as an
integer (bash's `legal_number`, an optionally signed decimal numeral). -/
def legal_number (s : String) : Option Int :=
  match s.data with
  | [] => none
  | '-' :: c :: cs => (digitsToNat 0 (c :: cs)).map (fun m => -(m : Int))
  | ds => (digitsToNat 0 ds).map (fun m => (m : Int))

/-- `strdup`: the copy visible to C of a string (truncates at NUL). -/
def strdup (s : String) : String := String.mk (cstrChars s)

/-- A bash shell variable as used by the builtin: a name, its scope mode
(local to the current variable context or global), and the contents of
its associative array. -/
structure ShellVar where
  name : String
  isLocal : Bool
  assoc : List (String × String)
deriving Repr, DecidableEq

/-- The variable registry: most recently created variables first, lookup
finds the first match. -/
abbrev Env := List ShellVar

/-- Modelled from the spec: bash's `find_variable` fetches the binding
for a name, `none` when there is no such variable (NULL). -/
def find_variable (env : Env) (name : String) : Option ShellVar :=
  match env with
  | [] => none
  | v :: rest => if v.name = name then some v else find_variable rest name

/-- Lookup in an associative array: first entry with the given key. -/
def alookup (l : List (String × String)) (k : String) : Option String :=
  match l with
  | [] => none
  | p :: rest => if p.1 = k then some p.2 else alookup rest k

/-- Insert-or-overwrite of one key in an associative array (keeps the
position of an existing key, appends a new one). -/
def assocBind (l : List (String × String)) (k v : String) : List (String × String) :=
  if (alookup l k).isSome then l.map (fun p => if p.1 = k then (k, v) else p)
  else l ++ [(k, v)]

/-- Modelled from the spec: bash's `bind_assoc_variable` inserts or
overwrites `key -> value` in the named associative array.  The builtin
only ever calls it on a variable it has found or created (claim C9 is
about the one call where the lookup is unchecked). -/
def bind_assoc_variable (env : Env) (name k v : String) : Env :=
  env.map (fun sv => if sv.name = name then { sv with assoc := assocBind sv.assoc k v }
                     else sv)

/-- Modelled from the spec: `make_local_assoc_variable` /
`make_new_assoc_variable` create — or re-fetch, when the name is already
bound ("creates/looks up", "creates (or re-fetches, if section repeats)")
— the named associative array; a fresh variable starts empty and carries
the requested scope mode.  Host-side refusal (readonly names and the
like) is outside this model, so creation always succeeds. -/
def make_assoc_variable (env : Env) (name : String) (isLocal : Bool) : Env :=
  if (find_variable env name).isSome then env else ⟨name, isLocal, []⟩ :: env

/-! ## The inih handler (src/ini.c lines 49-113) -/

/-- The diagnostics printed through `builtin_error` / `sh_invalidid`,
one constructor per call site in src/ini.c. -/
inductive Msg where
  | invalidFdSpec (arg : String)    -- "%s: invalid file descriptor specification"
  | invalidFd (fd : Int)            -- "%d: invalid file descriptor: %s"
  | usage                           -- builtin_usage()
  | unableToCreateSectionName       -- "Unable to create section name"
  | invalidIdentifier (name : String) -- sh_invalidid(sec_var_name)
  | couldNotFind (name : String)    -- "Could not find %s"
  | couldNotMake (name : String)    -- "Could not make %s"
  | malformedNameNull               -- "Malformed ini, name is NULL!"
  | malformedValueNull              -- "Malformed ini, value is NULL!"
  | unableToRead (fd : Int)         -- "Unable to read from fd: %d"
deriving Repr, DecidableEq

/-- User data of the handler (`ini_conf`). -/
structure IniConf where
  toc_var_name : String
  local_vars : Bool
deriving Repr, DecidableEq

/-- State threaded through the parse: the variable registry and the
diagnostics printed so far. -/
structure HState where
  env : Env
  errors : List Msg
deriving Repr, DecidableEq

/-- Handler outcome: `ok` (returns 1), `fail` (returns 0 after reporting),
or `crash` — the entry branch looked up the section variable, got NULL,
and passed it unchecked into `bind_assoc_variable` (src/ini.c lines
109-110), which dereferences it: undefined behavior, the process dies. -/
inductive HRet where
  | ok
  | fail
  | crash
deriving Repr, DecidableEq

/-- Translation of `handler` (src/ini.c lines 49-113).  A section event
has `name = value = none`; an entry event has both `some`.  The model of
`make_*_assoc_variable` cannot fail, so the "Could not make" branch
(lines 94-98) has no counterpart here. -/
def handler (conf : IniConf) (st : HState) (sectionName : String)
    (name value : Option String) : HState × HRet :=
  match buildSecVarName (fun _ => nulChar) conf.toc_var_name sectionName with
  | none => ({ st with errors := st.errors ++ [Msg.unableToCreateSectionName] }, HRet.fail)
  | some sec_var_name =>
    if !legal_identifier sec_var_name then
      ({ st with errors := st.errors ++ [Msg.invalidIdentifier sec_var_name] }, HRet.fail)
    else
      match name, value with
      | none, none =>
        -- new section parsed
        match find_variable st.env conf.toc_var_name with
        | none => ({ st with errors := st.errors ++ [Msg.couldNotFind conf.toc_var_name] },
                   HRet.fail)
        | some _ =>
          let env1 := bind_assoc_variable st.env conf.toc_var_name
            (strdup sectionName) "true"
          let env2 := make_assoc_variable env1 sec_var_name conf.local_vars
          ({ st with env := env2 }, HRet.ok)
      | none, some _ =>
        ({ st with errors := st.errors ++ [Msg.malformedNameNull] }, HRet.fail)
      | some _, none =>
        ({ st with errors := st.errors ++ [Msg.malformedValueNull] }, HRet.fail)
      | some n, some v =>
        match find_variable st.env sec_var_name with
        | none => (st, HRet.crash)
        | some _ =>
          ({ st with env := bind_assoc_variable st.env sec_var_name (strdup n) (strdup v) },
           HRet.ok)

/-! ## The inih driver (external collaborator, modelled) -/

/-- One line-event of an INI document as tokenized by inih: a `[section]`
header or a `key = value` entry. -/
inductive IniLine where
  | sec (name : String)
  | kv (key value : String)
deriving Repr, DecidableEq

/-- Modelled from the spec (§4.1/§9: a handler failure "is fatal for the
whole parse") and inih's documented API: the driver calls the handler
once per section header (`INI_CALL_HANDLER_ON_NEW_SECTION`, with NULL
name/value) and once per `key = value` line with the current section —
initially the empty string; it stops at the first failing event and
yields its line number, `none` meaning success (`ini_parse_file`
returns 0 on success, else the positive line number of the first error).
The `Bool` records whether the handler crashed the process. -/
def parseLoop (conf : IniConf) (cursec : String) (lineno : Nat) (st : HState) :
    List IniLine → HState × Option Nat × Bool
  | [] => (st, none, false)
  | IniLine.sec s :: rest =>
    match handler conf st s none none with
    | (st1, HRet.ok) => parseLoop conf s (lineno + 1) st1 rest
    | (st1, HRet.fail) => (st1, some lineno, false)
    | (st1, HRet.crash) => (st1, some lineno, true)
  | IniLine.kv k v :: rest =>
    match handler conf st cursec (some k) (some v) with
    | (st1, HRet.ok) => parseLoop conf cursec (lineno + 1) st1 rest
    | (st1, HRet.fail) => (st1, some lineno, false)
    | (st1, HRet.crash) => (st1, some lineno, true)

/-! ## The builtin entry point (src/ini.c lines 117-181) -/

/-- Bash status codes. -/
def EXECUTION_SUCCESS : Int := 0

def EXECUTION_FAILURE : Int := 1

def EX_USAGE : Int := 258

/-- The invocation's options: `-a TOC`, `-g`, `-u FD` (the raw option
argument for `-u`). -/
structure Args where
  a : Option String
  g : Bool
  u : Option String
deriving Repr, DecidableEq

/-- The host environment around one invocation: which file descriptors
`sh_validfd` accepts, and the INI events readable from each descriptor
(`none`: `ini_parse_file` fails with a negative return, e.g. an
unreadable stream). -/
structure World where
  validFd : Int → Bool
  content : Int → Option (List IniLine)

/-- Result of one invocation: the final registry, the diagnostics, and
the return status — `none` when the process crashed instead of
returning. -/
structure RunResult where
  env : Env
  errors : List Msg
  status : Option Int
  crashed : Bool

/-- The `-u` handling of the option loop (src/ini.c lines 133-144):
`legal_number`, the `intval < 0 || intval != (int)intval` range check,
and `sh_validfd`; the default descriptor is 0 (stdin). -/
def fdCheck (w : World) : Option String → Except Msg Int
  | none => Except.ok 0
  | some s =>
    match legal_number s with
    | none => Except.error (Msg.invalidFdSpec s)
    | some n =>
      if n < 0 || 2147483647 < n then Except.error (Msg.invalidFdSpec s)
      else if !w.validFd n then Except.error (Msg.invalidFd n)
      else Except.ok n

/-- Translation of `ini_builtin` (src/ini.c lines 117-181).  The option
loop validates `-u`'s argument (`legal_number`, the int range check, and
`sh_validfd`) before anything else; the required `-a` is checked next;
the TOC array is then created with the computed scope mode and the
document is parsed; only a negative parser return (file error) is
treated as a failure. -/
def ini_builtin (w : World) (variable_context : Nat) (env : Env) (args : Args) :
    RunResult :=
  match fdCheck w args.u with
  | Except.error m => { env := env, errors := [m], status := some EXECUTION_FAILURE,
                        crashed := false }
  | Except.ok fd =>
    match args.a with
    | none => { env := env, errors := [Msg.usage], status := some EX_USAGE,
                crashed := false }
    | some toc_var_name =>
      let local_vars : Bool := decide (0 < variable_context) && !args.g
      let conf : IniConf := ⟨toc_var_name, local_vars⟩
      let env1 := make_assoc_variable env toc_var_name local_vars
      match w.content fd with
      | none =>
        -- ini_parse_file returned a negative value
        { env := env1, errors := [Msg.unableToRead fd],
          status := some EXECUTION_FAILURE, crashed := false }
      | some doc =>
        match parseLoop conf "" 1 ⟨env1, []⟩ doc with
        | (st, _, true) => { env := st.env, errors := st.errors, status := none,
                             crashed := true }
        | (st, ret, false) =>
          -- if (ini_parse_file(file, handler, &conf) < 0): the handler
          -- error return (a positive line number) does not take this branch
          let retVal : Int := match ret with | none => 0 | some l => (l : Int)
          if retVal < 0 then
            { env := st.env, errors := st.errors ++ [Msg.unableToRead fd],
              status := some EXECUTION_FAILURE, crashed := false }
          else
            { env := st.env, errors := st.errors, status := some EXECUTION_SUCCESS,
              crashed := false }

/-! ## Specification-side definitions

Definitions written from the spec's words, used to state the claims:
the derived child name, document well-formedness, and the reference
key/value mapping of a document. -/

/-- The C string the handler's buffer holds after the three `memccpy`
calls (see `buildSecVarName_eq` below): the TOC name, one underscore,
and the section name. -/
def secVarNameOf (toc s : String) : String :=
  String.mk (cstrChars toc ++ '_' :: cstrChars s)

/-- The section names of a document, in document order. -/
def secNames : List IniLine → List String
  | [] => []
  | IniLine.sec s :: rest => s :: secNames rest
  | IniLine.kv _ _ :: rest => secNames rest

/-- A document is well-formed (relative to whether a section header has
already been seen) when every entry line is preceded by some section
header. -/
def wfLines (seenSec : Bool) : List IniLine → Bool
  | [] => true
  | IniLine.sec _ :: rest => wfLines true rest
  | IniLine.kv _ _ :: rest => seenSec && wfLines seenSec rest

/-- Every key and value of an entry of the document is NUL-free (they
reach the handler as C strings). -/
def entriesNulFree : List IniLine → Bool
  | [] => true
  | IniLine.sec _ :: rest => entriesNulFree rest
  | IniLine.kv k v :: rest => nulFree k && nulFree v && entriesNulFree rest

/-- Specification mapping, following the spec's words: the value the
document assigns to key `k` of section `s` is the value of the last
`k = ...` entry lying under a `[s]` header (entries before the first
header belong to the initial section `cur`), `none` when there is no
such entry. -/
def specKV (cur : String) : List IniLine → String → String → Option String
  | [], _, _ => none
  | IniLine.sec s1 :: rest, s, k => specKV s1 rest s k
  | IniLine.kv k1 v1 :: rest, s, k =>
    match specKV cur rest s k with
    | some v => some v
    | none => if cur = s ∧ k1 = k then some v1 else none

/-- First-some choice: the first argument if present, else the default
(used to state how a suffix's entries sit on top of earlier contents). -/
def orDefault (o : Option String) (d : Option String) : Option String :=
  match o with
  | some v => some v
  | none => d

/-- The `-u` argument is rejected by the option loop: it does not parse
as a number, is negative, overflows `int`, or fails `sh_validfd`. -/
def fdArgBad (w : World) (s : String) : Bool :=
  match legal_number s with
  | none => true
  | some n => decide (n < 0) || decide (2147483647 < n) || !w.validFd n

/-- The diagnostics of the descriptor-validation branches. -/
def isDescriptorError : Msg → Bool
  | Msg.invalidFdSpec _ => true
  | Msg.invalidFd _ => true
  | _ => false

/-- The `-u` option, when present, passes the option loop's validation. -/
def fdArgOkOpt (w : World) : Option String → Bool
  | none => true
  | some s => !fdArgBad w s

/-- The value bound for key `k` of the variable `name`, seen through the
registry (used to compare final mapping contents). -/
def valueAt (env : Env) (name k : String) : Option String :=
  match find_variable env name with
  | none => none
  | some sv => alookup sv.assoc k

/-! ### Behavior of the name construction -/

theorem memccpyTake_of_not_mem (l : List Char) (c : Char) (h : c ∉ l) :
    ∀ n : Nat, l.length + 1 ≤ n →
      memccpyTake (l ++ [c]) c n = (l ++ [c], true) := by
  induction l with
  | nil =>
    intro n hn
    match n, hn with
    | n + 1, _ => simp [memccpyTake]
  | cons b bs ih =>
    intro n hn
    match n, hn with
    | n + 1, hn =>
      have hb : b ≠ c := fun hbc => h (hbc ▸ List.mem_cons_self b bs)
      have hbs : c ∉ bs := fun hc => h (List.mem_cons_of_mem b hc)
      have hlen : bs.length + 1 ≤ n := by
        simp only [List.length_cons] at hn
        omega
      have hrec := ih hbs n hlen
      simp [memccpyTake, hb, hrec]

theorem nulChar_not_mem_cstrChars (s : String) : nulChar ∉ cstrChars s := by
  intro h
  have hmem := List.mem_takeWhile_imp h
  simp at hmem

theorem takeWhile_append_nul (a b : List Char) (h : nulChar ∉ a) :
    (a ++ nulChar :: b).takeWhile (fun c => c != nulChar) = a := by
  induction a with
  | nil => simp [List.takeWhile]
  | cons x xs ih =>
    have hx : x ≠ nulChar := fun hxe => h (hxe ▸ List.mem_cons_self x xs)
    have hxs : nulChar ∉ xs := fun hc => h (List.mem_cons_of_mem x hc)
    simp [List.takeWhile_cons, hx, ih hxs]

theorem memccpyInto_eq (buf : List Char) (off : Nat) (l : List Char) (n : Nat)
    (hl : nulChar ∉ l) (hn : l.length + 1 ≤ n) :
    memccpyInto buf off (l ++ [nulChar]) n =
      some (writeAt buf off (l ++ [nulChar]), off + (l.length + 1)) := by
  unfold memccpyInto
  rw [memccpyTake_of_not_mem l nulChar hl n hn]
  simp

/-- The three `memccpy` calls always succeed and the buffer ends up holding
exactly the C string of the TOC name, an underscore, and the section name
(independently of the junk initially filling the buffer). -/
theorem buildSecVarName_eq (junk : Nat → Char) (toc sectionName : String) :
    buildSecVarName junk toc sectionName =
      some (String.mk (cstrChars toc ++ '_' :: cstrChars sectionName)) := by
  have hsepb : cstrBytes "_" = ['_'] ++ [nulChar] := by decide
  have hssep : strlen "_" = 1 := by decide
  set ltoc := cstrChars toc with hltoc
  set lsec := cstrChars sectionName with hlsec
  have hnt : nulChar ∉ ltoc := nulChar_not_mem_cstrChars toc
  have hns : nulChar ∉ lsec := nulChar_not_mem_cstrChars sectionName
  have hstoc : strlen toc = ltoc.length := rfl
  have hssec : strlen sectionName = lsec.length := rfl
  have hctoc : cstrBytes toc = ltoc ++ [nulChar] := rfl
  have hcsec : cstrBytes sectionName = lsec ++ [nulChar] := rfl
  simp only [buildSecVarName]
  rw [hctoc, hcsec, hsepb]
  rw [memccpyInto_eq _ _ _ _ hnt (by omega)]
  simp only []
  rw [memccpyInto_eq _ _ _ _ (by decide) (by simp [hstoc, hssec, hssep]; omega)]
  simp only []
  rw [memccpyInto_eq _ _ _ _ hns (by simp [hstoc, hssec, hssep]; omega)]
  simp only []
  congr 1
  congr 1
  -- the remaining goal is a pure buffer computation
  set buf0 := (List.range (strlen toc + strlen sectionName + strlen "_" + 1)).map junk
    with hbuf0
  have hlen0 : buf0.length = ltoc.length + lsec.length + 2 := by
    rw [hbuf0]
    simp [hstoc, hssec, hssep]
  have hbuf1 : writeAt buf0 0 (ltoc ++ [nulChar])
      = (ltoc ++ [nulChar]) ++ buf0.drop (ltoc.length + 1) := by
    simp [writeAt]
  rw [hbuf1]
  have hoff1 : 0 + (ltoc.length + 1) - 1 = ltoc.length := by omega
  rw [hoff1]
  have htake2 : ((ltoc ++ [nulChar]) ++ buf0.drop (ltoc.length + 1)).take ltoc.length
      = ltoc := by
    rw [List.append_assoc]
    exact List.take_left ltoc ([nulChar] ++ buf0.drop (ltoc.length + 1))
  have hdrop2 : ((ltoc ++ [nulChar]) ++ buf0.drop (ltoc.length + 1)).drop
      (ltoc.length + (['_'] ++ [nulChar] : List Char).length)
      = buf0.drop (ltoc.length + 2) := by
    rw [show ltoc.length + (['_'] ++ [nulChar] : List Char).length
        = (ltoc ++ [nulChar] : List Char).length + 1 by simp]
    rw [← List.drop_drop]
    rw [List.drop_left]
    rw [List.drop_drop]
  have hbuf2 : writeAt ((ltoc ++ [nulChar]) ++ buf0.drop (ltoc.length + 1))
      ltoc.length (['_'] ++ [nulChar])
      = (ltoc ++ ['_', nulChar]) ++ buf0.drop (ltoc.length + 2) := by
    unfold writeAt
    rw [htake2, hdrop2]
    simp
  rw [hbuf2]
  have hoff2 : ltoc.length + ((['_'] : List Char).length + 1) - 1 = ltoc.length + 1 := by
    simp
  rw [hoff2]
  have htake3 : ((ltoc ++ ['_', nulChar]) ++ buf0.drop (ltoc.length + 2)).take
      (ltoc.length + 1) = ltoc ++ ['_'] := by
    rw [show (ltoc ++ ['_', nulChar] : List Char) = (ltoc ++ ['_']) ++ [nulChar] by simp]
    rw [List.append_assoc]
    rw [show ltoc.length + 1 = (ltoc ++ ['_'] : List Char).length by simp]
    exact List.take_left (ltoc ++ ['_']) ([nulChar] ++ buf0.drop (ltoc.length + 2))
  have hdrop3 : ((ltoc ++ ['_', nulChar]) ++ buf0.drop (ltoc.length + 2)).drop
      (ltoc.length + 1 + (lsec ++ [nulChar] : List Char).length) = [] := by
    apply List.drop_eq_nil_of_le
    simp [hlen0]
    omega
  have hbuf3 : writeAt ((ltoc ++ ['_', nulChar]) ++ buf0.drop (ltoc.length + 2))
      (ltoc.length + 1) (lsec ++ [nulChar])
      = (ltoc ++ ['_']) ++ (lsec ++ [nulChar]) := by
    unfold writeAt
    rw [htake3, hdrop3]
    simp
  rw [hbuf3]
  rw [show ((ltoc ++ ['_']) ++ (lsec ++ [nulChar]) : List Char)
      = (ltoc ++ '_' :: lsec) ++ nulChar :: ([] : List Char) by simp]
  apply takeWhile_append_nul
  intro hmem
  rcases List.mem_append.mp hmem with hc | hc
  · exact hnt hc
  · rcases List.mem_cons.mp hc with hc | hc
    · exact absurd hc.symm (by decide)
    · exact hns hc


theorem buildSecVarName_eq_secVarNameOf (junk : Nat → Char) (toc s : String) :
    buildSecVarName junk toc s = some (secVarNameOf toc s) :=
  buildSecVarName_eq junk toc s

theorem takeWhile_ne_nul_of_not_mem (l : List Char) (h : nulChar ∉ l) :
    l.takeWhile (fun c => c != nulChar) = l := by
  induction l with
  | nil => rfl
  | cons c cs ih =>
    have hc : c ≠ nulChar := fun he => h (he ▸ List.mem_cons_self c cs)
    have hcs : nulChar ∉ cs := fun hm => h (List.mem_cons_of_mem c hm)
    simp [List.takeWhile_cons, hc, ih hcs]

theorem cstrChars_of_nulFree (s : String) (h : nulFree s = true) :
    cstrChars s = s.data := by
  have hmem : nulChar ∉ s.data := by
    simp [nulFree] at h
    exact h
  exact takeWhile_ne_nul_of_not_mem s.data hmem

theorem secVarNameOf_of_nulFree (toc s : String) (h1 : nulFree toc = true)
    (h2 : nulFree s = true) : secVarNameOf toc s = toc ++ "_" ++ s := by
  unfold secVarNameOf
  rw [cstrChars_of_nulFree toc h1, cstrChars_of_nulFree s h2]
  apply String.ext
  simp [String.data_append]

/-- C2: for every TOC root name and section name (as C strings, hence
NUL-free), the derived child-table name computed by the handler is
exactly the TOC name, a single underscore, and the section name — no
other separator, casing transform or escaping — whatever junk the
`malloc`'d buffer held. -/
theorem derived_child_name_exact (junk : Nat → Char) (toc s : String)
    (h1 : nulFree toc = true) (h2 : nulFree s = true) :
    buildSecVarName junk toc s = some (toc ++ "_" ++ s) := by
  rw [buildSecVarName_eq_secVarNameOf, secVarNameOf_of_nulFree toc s h1 h2]

theorem derived_child_name_exact_witness :
    nulFree "conf" = true ∧ nulFree "sec1" = true ∧
      buildSecVarName (fun _ => 'A') "conf" "sec1" = some ("conf" ++ "_" ++ "sec1") :=
  ⟨by decide, by decide,
    derived_child_name_exact (fun _ => 'A') "conf" "sec1" (by decide) (by decide)⟩

/-- C10: the buffer of size `strlen(toc) + strlen(section) + strlen("_") + 1`
is exactly large enough: each of the three `memccpy` calls finds the
source terminator within the remaining space and returns non-NULL, so
the three "Unable to create section name" branches of the handler are
unreachable — the handler never appends that diagnostic. -/
theorem unable_to_create_section_name_unreachable (junk : Nat → Char) (toc s : String)
    (conf : IniConf) (st : HState) (sectionName : String) (name value : Option String) :
    (buildSecVarName junk toc s).isSome = true ∧
      ∃ extra, (handler conf st sectionName name value).1.errors = st.errors ++ extra ∧
        Msg.unableToCreateSectionName ∉ extra := by
  constructor
  · rw [buildSecVarName_eq_secVarNameOf]
    rfl
  · unfold handler
    rw [buildSecVarName_eq_secVarNameOf]
    by_cases hleg : legal_identifier (secVarNameOf conf.toc_var_name sectionName) = true
    · simp only [hleg, Bool.not_true]
      match name, value with
      | none, none =>
        match hf : find_variable st.env conf.toc_var_name with
        | none => exact ⟨[Msg.couldNotFind conf.toc_var_name], by simp [hf], by simp⟩
        | some v => exact ⟨[], by simp [hf], by simp⟩
      | none, some v => exact ⟨[Msg.malformedNameNull], by simp, by simp⟩
      | some n, none => exact ⟨[Msg.malformedValueNull], by simp, by simp⟩
      | some n, some v =>
        match hf : find_variable st.env (secVarNameOf conf.toc_var_name sectionName) with
        | none => exact ⟨[], by simp [hf], by simp⟩
        | some sv => exact ⟨[], by simp [hf], by simp⟩
    · rw [Bool.not_eq_true] at hleg
      simp only [hleg]
      exact ⟨[Msg.invalidIdentifier (secVarNameOf conf.toc_var_name sectionName)],
        by simp, by simp⟩

/-! ### Concrete runs exhibiting the two divergences from the spec -/

/-- C3: on a document whose second section name `sec-1` fails the
identifier grammar, the error is reported with the offending derived
name, parsing stops there (no binding for the bad section or its entry),
and the bindings of the earlier section remain — but the invocation
returns `EXECUTION_SUCCESS`, not a failure status: the handler abort
makes `ini_parse_file` return the positive line number of the error,
and src/ini.c line 176 only treats a negative return as failure. -/
theorem invalid_identifier_returns_success :
    (ini_builtin
        ⟨fun _ => true,
         fun _ => some [IniLine.sec "ok", IniLine.kv "k" "v",
                        IniLine.sec "sec-1", IniLine.kv "x" "y"]⟩
        0 [] ⟨some "conf", false, none⟩).status = some EXECUTION_SUCCESS ∧
    (ini_builtin
        ⟨fun _ => true,
         fun _ => some [IniLine.sec "ok", IniLine.kv "k" "v",
                        IniLine.sec "sec-1", IniLine.kv "x" "y"]⟩
        0 [] ⟨some "conf", false, none⟩).errors
      = [Msg.invalidIdentifier "conf_sec-1"] ∧
    (ini_builtin
        ⟨fun _ => true,
         fun _ => some [IniLine.sec "ok", IniLine.kv "k" "v",
                        IniLine.sec "sec-1", IniLine.kv "x" "y"]⟩
        0 [] ⟨some "conf", false, none⟩).env
      = [⟨"conf_ok", false, [("k", "v")]⟩, ⟨"conf", false, [("ok", "true")]⟩] := by
  refine ⟨?_, ?_, ?_⟩ <;> decide

/-- C4: an entry line before any section header does not produce any
"orphan entry" diagnostic: inih delivers it under the initial empty
section, the derived name `conf_` passes the identifier check, the
NULL-name/NULL-value branches cannot fire for a real entry, and the
handler passes the NULL result of `find_variable("conf_")` straight into
`bind_assoc_variable` — the process crashes with no status; the only
binding in the registry is the empty TOC array created before parsing. -/
theorem orphan_entry_crashes_without_error :
    (ini_builtin ⟨fun _ => true, fun _ => some [IniLine.kv "foo" "bar"]⟩
        0 [] ⟨some "conf", false, none⟩).crashed = true ∧
    (ini_builtin ⟨fun _ => true, fun _ => some [IniLine.kv "foo" "bar"]⟩
        0 [] ⟨some "conf", false, none⟩).errors = [] ∧
    (ini_builtin ⟨fun _ => true, fun _ => some [IniLine.kv "foo" "bar"]⟩
        0 [] ⟨some "conf", false, none⟩).status = none ∧
    (ini_builtin ⟨fun _ => true, fun _ => some [IniLine.kv "foo" "bar"]⟩
        0 [] ⟨some "conf", false, none⟩).env = [⟨"conf", false, []⟩] := by
  refine ⟨?_, ?_, ?_, ?_⟩ <;> decide

/-- C9, counterexample: it is not true that the variable looked up under
the derived section name is always non-NULL when `bind_assoc_variable`
is invoked — on a document consisting of a single entry with no section
header, the unchecked `find_variable` result is NULL and flows into the
binding call (`crashed` marks exactly that flow, see `handler`). -/
theorem entry_lookup_null_counterexample :
    (ini_builtin ⟨fun _ => true, fun _ => some [IniLine.kv "a" "b"]⟩
        0 [] ⟨some "conf", false, none⟩).crashed = true := by
  decide

/-! ### Usage and descriptor validation (C5, C6) -/

/-- C5: when the supplied input descriptor is not a valid readable source
(the `-u` argument fails `legal_number`, the int range check, or
`sh_validfd`), the invocation reports a descriptor error and returns
`EXECUTION_FAILURE` while the registry is untouched — in particular
before any TOC binding is created. -/
theorem invalid_descriptor_fails_before_toc (w : World) (ctx : Nat) (env : Env)
    (a : Option String) (g : Bool) (s : String) (h : fdArgBad w s = true) :
    (ini_builtin w ctx env ⟨a, g, some s⟩).status = some EXECUTION_FAILURE ∧
    (ini_builtin w ctx env ⟨a, g, some s⟩).env = env ∧
    ∃ m, (ini_builtin w ctx env ⟨a, g, some s⟩).errors = [m] ∧
      isDescriptorError m = true := by
  unfold fdArgBad at h
  cases hleg : legal_number s with
  | none =>
    refine ⟨?_, ?_, ⟨Msg.invalidFdSpec s, ?_, rfl⟩⟩ <;> simp [ini_builtin, fdCheck, hleg]
  | some n =>
    rw [hleg] at h
    simp only [] at h
    cases hb : (decide (n < 0) || decide (2147483647 < n)) with
    | true =>
      refine ⟨?_, ?_, ⟨Msg.invalidFdSpec s, ?_, rfl⟩⟩ <;> simp [ini_builtin, fdCheck, hleg, hb]
    | false =>
      have hv : w.validFd n = false := by
        rw [hb] at h
        simp at h
        simp [h]
      refine ⟨?_, ?_, ⟨Msg.invalidFd n, ?_, rfl⟩⟩ <;> simp [ini_builtin, fdCheck, hleg, hb, hv]

theorem invalid_descriptor_fails_before_toc_witness :
    fdArgBad ⟨fun _ => false, fun _ => none⟩ "3" = true ∧
    ((ini_builtin ⟨fun _ => false, fun _ => none⟩ 0 []
        ⟨some "conf", false, some "3"⟩).status = some EXECUTION_FAILURE ∧
      (ini_builtin ⟨fun _ => false, fun _ => none⟩ 0 []
        ⟨some "conf", false, some "3"⟩).env = [] ∧
      ∃ m, (ini_builtin ⟨fun _ => false, fun _ => none⟩ 0 []
        ⟨some "conf", false, some "3"⟩).errors = [m] ∧ isDescriptorError m = true) :=
  ⟨by decide,
    invalid_descriptor_fails_before_toc ⟨fun _ => false, fun _ => none⟩ 0 []
      (some "conf") false "3" (by decide)⟩

/-- C6: when the required `-a TOC` option is missing (and option
processing otherwise succeeds), the builtin prints its usage message
before any parsing begins, returns `EX_USAGE` (non-zero), and creates no
bindings. -/
theorem missing_root_name_usage_error (w : World) (ctx : Nat) (env : Env)
    (g : Bool) (u : Option String) (h : fdArgOkOpt w u = true) :
    (ini_builtin w ctx env ⟨none, g, u⟩).status = some EX_USAGE ∧
    (ini_builtin w ctx env ⟨none, g, u⟩).errors = [Msg.usage] ∧
    (ini_builtin w ctx env ⟨none, g, u⟩).env = env ∧
    EX_USAGE ≠ EXECUTION_SUCCESS := by
  cases u with
  | none => exact ⟨rfl, rfl, rfl, by decide⟩
  | some s =>
    unfold fdArgOkOpt at h
    simp only [] at h
    unfold fdArgBad at h
    cases hleg : legal_number s with
    | none => rw [hleg] at h; simp at h
    | some n =>
      rw [hleg] at h
      simp only [] at h
      cases hb : (decide (n < 0) || decide (2147483647 < n)) with
      | true => rw [hb] at h; simp at h
      | false =>
        have hv : w.validFd n = true := by
          rw [hb] at h
          simp at h
          exact h
        refine ⟨?_, ?_, ?_, by decide⟩ <;> simp [ini_builtin, fdCheck, hleg, hb, hv]

theorem missing_root_name_usage_error_witness :
    fdArgOkOpt ⟨fun _ => true, fun _ => some []⟩ none = true ∧
    ((ini_builtin ⟨fun _ => true, fun _ => some []⟩ 2 [] ⟨none, true, none⟩).status
        = some EX_USAGE ∧
      (ini_builtin ⟨fun _ => true, fun _ => some []⟩ 2 [] ⟨none, true, none⟩).errors
        = [Msg.usage] ∧
      (ini_builtin ⟨fun _ => true, fun _ => some []⟩ 2 [] ⟨none, true, none⟩).env = [] ∧
      EX_USAGE ≠ EXECUTION_SUCCESS) :=
  ⟨by decide,
    missing_root_name_usage_error ⟨fun _ => true, fun _ => some []⟩ 2 [] true none
      (by decide)⟩

/-! ### Registry helper lemmas -/

theorem find_variable_name (env : Env) (name : String) (sv : ShellVar)
    (h : find_variable env name = some sv) : sv.name = name := by
  induction env with
  | nil => simp [find_variable] at h
  | cons v rest ih =>
    unfold find_variable at h
    by_cases hv : v.name = name
    · rw [if_pos hv] at h
      cases h
      exact hv
    · rw [if_neg hv] at h
      exact ih h

theorem find_variable_map (env : Env) (name : String) (f : ShellVar → ShellVar)
    (hf : ∀ sv, (f sv).name = sv.name) :
    find_variable (env.map f) name = (find_variable env name).map f := by
  induction env with
  | nil => rfl
  | cons x rest ih =>
    simp only [List.map, find_variable]
    by_cases hx : x.name = name
    · rw [if_pos (by rw [hf]; exact hx), if_pos hx]
      rfl
    · rw [if_neg (by rw [hf]; exact hx), if_neg hx]
      exact ih

theorem find_bind_assoc (env : Env) (nm k v name : String) :
    find_variable (bind_assoc_variable env nm k v) name =
      (find_variable env name).map
        (fun sv => if sv.name = nm then { sv with assoc := assocBind sv.assoc k v }
                   else sv) := by
  unfold bind_assoc_variable
  exact find_variable_map env name _ (fun sv => by by_cases h : sv.name = nm <;> simp [h])

theorem find_bind_assoc_ne (env : Env) (nm k v name : String) (h : name ≠ nm) :
    find_variable (bind_assoc_variable env nm k v) name = find_variable env name := by
  rw [find_bind_assoc]
  cases hf : find_variable env name with
  | none => rfl
  | some sv =>
    have := find_variable_name env name sv hf
    simp [this, h]

theorem find_bind_assoc_self (env : Env) (nm k v : String) :
    find_variable (bind_assoc_variable env nm k v) nm =
      (find_variable env nm).map
        (fun sv => { sv with assoc := assocBind sv.assoc k v }) := by
  rw [find_bind_assoc]
  cases hf : find_variable env nm with
  | none => rfl
  | some sv =>
    have := find_variable_name env nm sv hf
    simp [this]

theorem isSome_find_bind_assoc (env : Env) (nm k v name : String) :
    (find_variable (bind_assoc_variable env nm k v) name).isSome
      = (find_variable env name).isSome := by
  rw [find_bind_assoc]
  cases find_variable env name <;> rfl

theorem find_make_self (env : Env) (nm : String) (flag : Bool) :
    (find_variable (make_assoc_variable env nm flag) nm).isSome = true := by
  unfold make_assoc_variable
  cases hf : (find_variable env nm).isSome with
  | true => simpa using hf
  | false => simp [find_variable]

theorem find_make_ne (env : Env) (nm : String) (flag : Bool) (name : String)
    (h : name ≠ nm) :
    find_variable (make_assoc_variable env nm flag) name = find_variable env name := by
  unfold make_assoc_variable
  cases hf : (find_variable env nm).isSome with
  | true => simp
  | false =>
    rw [if_neg (by simp [hf])]
    rw [show find_variable (⟨nm, flag, []⟩ :: env) name
        = if (ShellVar.mk nm flag []).name = name then some ⟨nm, flag, []⟩
          else find_variable env name from rfl]
    rw [if_neg (show ¬(ShellVar.mk nm flag []).name = name from fun he => h he.symm)]

theorem isSome_find_make (env : Env) (nm : String) (flag : Bool) (name : String) :
    (find_variable env name).isSome = true →
    (find_variable (make_assoc_variable env nm flag) name).isSome = true := by
  intro h
  by_cases hn : name = nm
  · rw [hn]; exact find_make_self env nm flag
  · rw [find_make_ne env nm flag name hn]; exact h

/-! ### Scope-mode invariant (C7) -/

theorem mem_bind_assoc_isLocal (env : Env) (nm k v : String) (x : ShellVar)
    (hx : x ∈ bind_assoc_variable env nm k v) :
    ∃ y ∈ env, x.isLocal = y.isLocal := by
  unfold bind_assoc_variable at hx
  rcases List.mem_map.mp hx with ⟨y, hy, hxy⟩
  refine ⟨y, hy, ?_⟩
  by_cases hnm : y.name = nm
  · rw [← hxy]; simp [hnm]
  · rw [← hxy]; simp [hnm]

theorem mem_make_assoc (env : Env) (nm : String) (flag : Bool) (x : ShellVar)
    (hx : x ∈ make_assoc_variable env nm flag) :
    x ∈ env ∨ x = ⟨nm, flag, []⟩ := by
  unfold make_assoc_variable at hx
  by_cases hf : (find_variable env nm).isSome = true
  · rw [if_pos hf] at hx
    exact Or.inl hx
  · rw [if_neg hf] at hx
    rcases List.mem_cons.mp hx with h | h
    · exact Or.inr h
    · exact Or.inl h

theorem handler_env_isLocal (conf : IniConf) (st : HState) (s : String)
    (nm vl : Option String)
    (hinv : ∀ x ∈ st.env, x.isLocal = conf.local_vars) :
    ∀ x ∈ (handler conf st s nm vl).1.env, x.isLocal = conf.local_vars := by
  unfold handler
  rw [buildSecVarName_eq_secVarNameOf]
  by_cases hleg : legal_identifier (secVarNameOf conf.toc_var_name s) = true
  · simp only [hleg, Bool.not_true, Bool.false_eq_true, if_false]
    cases nm with
    | none =>
      cases vl with
      | none =>
        cases hf : find_variable st.env conf.toc_var_name with
        | none => simpa using hinv
        | some t =>
          simp only [hf]
          intro x hx
          rcases mem_make_assoc _ _ _ x hx with h | h
          · rcases mem_bind_assoc_isLocal _ _ _ _ x h with ⟨y, hy, hxy⟩
            rw [hxy]; exact hinv y hy
          · rw [h]
      | some v => simpa using hinv
    | some n =>
      cases vl with
      | none => simpa using hinv
      | some v =>
        cases hf : find_variable st.env (secVarNameOf conf.toc_var_name s) with
        | none => simpa using hinv
        | some sv =>
          simp only [hf]
          intro x hx
          rcases mem_bind_assoc_isLocal _ _ _ _ x hx with ⟨y, hy, hxy⟩
          rw [hxy]; exact hinv y hy
  · rw [Bool.not_eq_true] at hleg
    simp only [hleg]
    simpa using hinv

theorem parseLoop_env_isLocal (conf : IniConf) (rest : List IniLine) :
    ∀ (cursec : String) (n : Nat) (st : HState),
    (∀ x ∈ st.env, x.isLocal = conf.local_vars) →
    ∀ x ∈ (parseLoop conf cursec n st rest).1.env, x.isLocal = conf.local_vars := by
  induction rest with
  | nil => intro cursec n st h; exact h
  | cons line rest ih =>
    intro cursec n st h
    cases line with
    | sec s1 =>
      rcases hh : handler conf st s1 none none with ⟨st1, r⟩
      have h1 : ∀ x ∈ st1.env, x.isLocal = conf.local_vars := by
        have := handler_env_isLocal conf st s1 none none h
        rw [hh] at this
        exact this
      cases r with
      | ok => simp only [parseLoop, hh]; exact ih s1 (n + 1) st1 h1
      | fail => simp only [parseLoop, hh]; exact h1
      | crash => simp only [parseLoop, hh]; exact h1
    | kv k v =>
      rcases hh : handler conf st cursec (some k) (some v) with ⟨st1, r⟩
      have h1 : ∀ x ∈ st1.env, x.isLocal = conf.local_vars := by
        have := handler_env_isLocal conf st cursec (some k) (some v) h
        rw [hh] at this
        exact this
      cases r with
      | ok => simp only [parseLoop, hh]; exact ih cursec (n + 1) st1 h1
      | fail => simp only [parseLoop, hh]; exact h1
      | crash => simp only [parseLoop, hh]; exact h1

/-- C7: starting from an empty registry, every binding an invocation
creates — the TOC and all child section tables alike — is local exactly
when the call happens in a nested variable context (`variable_context`
positive) and `-g` was not given; otherwise all are global. -/
theorem scope_mode_matches_context (w : World) (ctx : Nat) (args : Args)
    (x : ShellVar) (hx : x ∈ (ini_builtin w ctx [] args).env) :
    x.isLocal = (decide (0 < ctx) && !args.g) := by
  unfold ini_builtin at hx
  rcases hfd : fdCheck w args.u with m | fd
  · simp [hfd] at hx
  · cases ha : args.a with
    | none => simp [hfd, ha] at hx
    | some toc =>
      simp only [hfd, ha] at hx
      have henv1 : ∀ y ∈ make_assoc_variable ([] : Env) toc (decide (0 < ctx) && !args.g),
          y.isLocal = (decide (0 < ctx) && !args.g) := by
        intro y hy
        rcases mem_make_assoc _ _ _ y hy with h | h
        · simp at h
        · rw [h]
      cases hc : w.content fd with
      | none =>
        simp only [hc] at hx
        exact henv1 x hx
      | some doc =>
        simp only [hc] at hx
        rcases hp : parseLoop ⟨toc, decide (0 < ctx) && !args.g⟩ "" 1
            ⟨make_assoc_variable [] toc (decide (0 < ctx) && !args.g), []⟩ doc
          with ⟨st, ret, cr⟩
        have hst : ∀ y ∈ st.env, y.isLocal = (decide (0 < ctx) && !args.g) := by
          have := parseLoop_env_isLocal ⟨toc, decide (0 < ctx) && !args.g⟩ doc "" 1
            ⟨make_assoc_variable [] toc (decide (0 < ctx) && !args.g), []⟩ henv1
          rw [hp] at this
          exact this
        simp only [hp] at hx
        cases cr with
        | true => exact hst x hx
        | false =>
          by_cases hret : (match ret with | none => (0 : Int) | some l => (l : Int)) < 0
          · simp only [if_pos hret] at hx
            exact hst x hx
          · simp only [if_neg hret] at hx
            exact hst x hx

theorem scope_mode_matches_context_witness :
    (⟨"conf_s1", false, []⟩ : ShellVar) ∈
      (ini_builtin ⟨fun _ => true, fun _ => some [IniLine.sec "s1"]⟩ 0 []
        ⟨some "conf", false, none⟩).env ∧
    (⟨"conf_s1", false, []⟩ : ShellVar).isLocal = (decide (0 < 0) && !false) :=
  ⟨by decide,
    scope_mode_matches_context ⟨fun _ => true, fun _ => some [IniLine.sec "s1"]⟩ 0
      ⟨some "conf", false, none⟩ ⟨"conf_s1", false, []⟩ (by decide)⟩

/-! ### Handler characterization -/

theorem handler_section_illegal (conf : IniConf) (st : HState) (s1 : String)
    (hleg : legal_identifier (secVarNameOf conf.toc_var_name s1) = false) :
    handler conf st s1 none none =
      ({ st with errors := st.errors ++
          [Msg.invalidIdentifier (secVarNameOf conf.toc_var_name s1)] }, HRet.fail) := by
  unfold handler
  rw [buildSecVarName_eq_secVarNameOf]
  simp [hleg]

theorem handler_section_no_toc (conf : IniConf) (st : HState) (s1 : String)
    (hleg : legal_identifier (secVarNameOf conf.toc_var_name s1) = true)
    (hf : find_variable st.env conf.toc_var_name = none) :
    handler conf st s1 none none =
      ({ st with errors := st.errors ++ [Msg.couldNotFind conf.toc_var_name] },
        HRet.fail) := by
  unfold handler
  rw [buildSecVarName_eq_secVarNameOf]
  simp [hleg, hf]

theorem handler_section_ok (conf : IniConf) (st : HState) (s1 : String) (t : ShellVar)
    (hleg : legal_identifier (secVarNameOf conf.toc_var_name s1) = true)
    (hf : find_variable st.env conf.toc_var_name = some t) :
    handler conf st s1 none none =
      (⟨make_assoc_variable
          (bind_assoc_variable st.env conf.toc_var_name (strdup s1) "true")
          (secVarNameOf conf.toc_var_name s1) conf.local_vars,
        st.errors⟩, HRet.ok) := by
  unfold handler
  rw [buildSecVarName_eq_secVarNameOf]
  simp [hleg, hf]

theorem handler_entry_illegal (conf : IniConf) (st : HState) (cursec k v : String)
    (hleg : legal_identifier (secVarNameOf conf.toc_var_name cursec) = false) :
    handler conf st cursec (some k) (some v) =
      ({ st with errors := st.errors ++
          [Msg.invalidIdentifier (secVarNameOf conf.toc_var_name cursec)] },
        HRet.fail) := by
  unfold handler
  rw [buildSecVarName_eq_secVarNameOf]
  simp [hleg]

theorem handler_entry_null (conf : IniConf) (st : HState) (cursec k v : String)
    (hleg : legal_identifier (secVarNameOf conf.toc_var_name cursec) = true)
    (hf : find_variable st.env (secVarNameOf conf.toc_var_name cursec) = none) :
    handler conf st cursec (some k) (some v) = (st, HRet.crash) := by
  unfold handler
  rw [buildSecVarName_eq_secVarNameOf]
  simp [hleg, hf]

theorem handler_entry_ok (conf : IniConf) (st : HState) (cursec k v : String)
    (sv : ShellVar)
    (hleg : legal_identifier (secVarNameOf conf.toc_var_name cursec) = true)
    (hf : find_variable st.env (secVarNameOf conf.toc_var_name cursec) = some sv) :
    handler conf st cursec (some k) (some v) =
      (⟨bind_assoc_variable st.env (secVarNameOf conf.toc_var_name cursec)
          (strdup k) (strdup v), st.errors⟩, HRet.ok) := by
  unfold handler
  rw [buildSecVarName_eq_secVarNameOf]
  simp [hleg, hf]

/-! ### The entry binding is only reached with a live section variable
on well-formed documents (C9) -/

theorem parseLoop_no_crash (conf : IniConf) (rest : List IniLine) :
    ∀ (cursec : String) (seen : Bool) (n : Nat) (st : HState),
    wfLines seen rest = true →
    (seen = true →
      (find_variable st.env (secVarNameOf conf.toc_var_name cursec)).isSome = true) →
    (parseLoop conf cursec n st rest).2.2 = false := by
  induction rest with
  | nil => intro cursec seen n st _ _; rfl
  | cons line rest ih =>
    intro cursec seen n st hwf hsec
    cases line with
    | sec s1 =>
      have hwf' : wfLines true rest = true := by simpa [wfLines] using hwf
      by_cases hleg : legal_identifier (secVarNameOf conf.toc_var_name s1) = true
      · cases hf : find_variable st.env conf.toc_var_name with
        | none =>
          simp only [parseLoop, handler_section_no_toc conf st s1 hleg hf]
        | some t =>
          simp only [parseLoop, handler_section_ok conf st s1 t hleg hf]
          apply ih s1 true (n + 1) _ hwf'
          intro _
          exact find_make_self _ _ _
      · rw [Bool.not_eq_true] at hleg
        simp only [parseLoop, handler_section_illegal conf st s1 hleg]
    | kv k v =>
      have hseen : seen = true := by
        cases seen
        · simp [wfLines] at hwf
        · rfl
      subst hseen
      have hwf' : wfLines true rest = true := by simpa [wfLines] using hwf
      have hsec' := hsec rfl
      by_cases hleg : legal_identifier (secVarNameOf conf.toc_var_name cursec) = true
      · cases hf : find_variable st.env (secVarNameOf conf.toc_var_name cursec) with
        | none => rw [hf] at hsec'; simp at hsec'
        | some sv =>
          simp only [parseLoop, handler_entry_ok conf st cursec k v sv hleg hf]
          apply ih cursec true (n + 1) _ hwf'
          intro _
          rw [isSome_find_bind_assoc]
          exact hsec'
      · rw [Bool.not_eq_true] at hleg
        simp only [parseLoop, handler_entry_illegal conf st cursec k v hleg]

/-- C9, amended: on a document in which every entry line is preceded by
some section header, the handler's unchecked `find_variable` lookup is
non-NULL whenever the entry branch reaches `bind_assoc_variable` — the
run never performs the NULL bind (no crash).  An entry is bound only
under a section whose event succeeded and hence whose child table was
created. -/
theorem wf_document_entry_lookup_nonnull (w : World) (ctx : Nat) (g : Bool)
    (toc : String) (doc : List IniLine)
    (hdoc : w.content 0 = some doc) (hwf : wfLines false doc = true) :
    (ini_builtin w ctx [] ⟨some toc, g, none⟩).crashed = false := by
  unfold ini_builtin
  simp only [fdCheck, hdoc]
  rcases hp : parseLoop ⟨toc, decide (0 < ctx) && !g⟩ "" 1
      ⟨make_assoc_variable [] toc (decide (0 < ctx) && !g), []⟩ doc with ⟨st, ret, cr⟩
  have hcr : cr = false := by
    have hnc := parseLoop_no_crash ⟨toc, decide (0 < ctx) && !g⟩ doc "" false 1
      ⟨make_assoc_variable [] toc (decide (0 < ctx) && !g), []⟩ hwf
      (by intro h; cases h)
    rw [hp] at hnc
    exact hnc
  subst hcr
  simp only [hp]
  by_cases hret : (match ret with | none => (0 : Int) | some l => (l : Int)) < 0
  · simp only [if_pos hret]
  · simp only [if_neg hret]

theorem wf_document_entry_lookup_nonnull_witness :
    (⟨fun _ => true, fun _ => some [IniLine.sec "s", IniLine.kv "a" "b"]⟩ :
        World).content 0 = some [IniLine.sec "s", IniLine.kv "a" "b"] ∧
    wfLines false [IniLine.sec "s", IniLine.kv "a" "b"] = true ∧
    (ini_builtin ⟨fun _ => true, fun _ => some [IniLine.sec "s", IniLine.kv "a" "b"]⟩
      0 [] ⟨some "conf", false, none⟩).crashed = false :=
  ⟨rfl, by decide,
    wf_document_entry_lookup_nonnull ⟨fun _ => true,
        fun _ => some [IniLine.sec "s", IniLine.kv "a" "b"]⟩
      0 false "conf" [IniLine.sec "s", IniLine.kv "a" "b"] rfl (by decide)⟩

/-! ### Associative-array lemmas -/

theorem alookup_append (l1 l2 : List (String × String)) (k : String) :
    alookup (l1 ++ l2) k =
      match alookup l1 k with
      | some v => some v
      | none => alookup l2 k := by
  induction l1 with
  | nil => rfl
  | cons p rest ih =>
    by_cases hp : p.1 = k
    · simp [alookup, hp]
    · simp only [List.cons_append, alookup, if_neg hp]
      exact ih

theorem alookup_map_ne (l : List (String × String)) (k v k' : String) (h : k' ≠ k) :
    alookup (l.map (fun p => if p.1 = k then (k, v) else p)) k' = alookup l k' := by
  induction l with
  | nil => rfl
  | cons p rest ih =>
    by_cases hp : p.1 = k
    · simp only [List.map, if_pos hp]
      rw [show alookup ((k, v) :: rest.map (fun p => if p.1 = k then (k, v) else p)) k'
          = if k = k' then some v
            else alookup (rest.map (fun p => if p.1 = k then (k, v) else p)) k' from rfl]
      rw [if_neg (fun he : k = k' => h he.symm)]
      rw [show alookup (p :: rest) k' = if p.1 = k' then some p.2 else alookup rest k'
          from rfl]
      rw [if_neg (fun he : p.1 = k' => h (he.symm.trans hp))]
      exact ih
    · simp only [List.map, if_neg hp]
      rw [show alookup (p :: rest.map (fun p => if p.1 = k then (k, v) else p)) k'
          = if p.1 = k' then some p.2
            else alookup (rest.map (fun p => if p.1 = k then (k, v) else p)) k' from rfl]
      rw [show alookup (p :: rest) k' = if p.1 = k' then some p.2 else alookup rest k'
          from rfl]
      by_cases hk : p.1 = k'
      · rw [if_pos hk, if_pos hk]
      · rw [if_neg hk, if_neg hk]
        exact ih

theorem alookup_map_upd (l : List (String × String)) (k v : String)
    (hs : (alookup l k).isSome = true) :
    alookup (l.map (fun p => if p.1 = k then (k, v) else p)) k = some v := by
  induction l with
  | nil => simp [alookup] at hs
  | cons p rest ih =>
    by_cases hp : p.1 = k
    · simp [List.map, if_pos hp, alookup]
    · simp only [List.map, if_neg hp, alookup, if_neg hp]
      apply ih
      simpa [alookup, if_neg hp] using hs

theorem alookup_assocBind (l : List (String × String)) (k v k' : String) :
    alookup (assocBind l k v) k' = if k' = k then some v else alookup l k' := by
  unfold assocBind
  by_cases hs : (alookup l k).isSome = true
  · rw [if_pos hs]
    by_cases hk : k' = k
    · rw [if_pos hk, hk]
      exact alookup_map_upd l k v hs
    · rw [if_neg hk]
      exact alookup_map_ne l k v k' hk
  · rw [if_neg hs]
    rw [alookup_append]
    by_cases hk : k' = k
    · subst hk
      rw [Option.not_isSome_iff_eq_none] at hs
      rw [hs]
      simp [alookup]
    · rw [if_neg hk]
      cases hl : alookup l k' with
      | none => simp [alookup, if_neg (fun he : k = k' => hk he.symm)]
      | some u => rfl

/-! ### Name and C-string lemmas -/

theorem strdup_of_nulFree (s : String) (h : nulFree s = true) : strdup s = s := by
  unfold strdup
  rw [cstrChars_of_nulFree s h]

theorem legal_all_chars (t : String) (h : legal_identifier t = true) :
    ∀ c ∈ t.data, (c.isAlphanum || c == '_') = true := by
  intro d hd
  unfold legal_identifier at h
  cases ht : t.data with
  | nil => rw [ht] at hd; cases hd
  | cons c cs =>
    rw [ht] at h hd
    simp only [] at h
    rw [Bool.and_eq_true] at h
    rcases List.mem_cons.mp hd with hd | hd
    · subst hd
      rcases (Bool.or_eq_true _ _).mp h.1 with ha | hu
      · have hA : d.isAlphanum = true := by
          unfold Char.isAlphanum
          rw [ha]
          rfl
        rw [hA]
        rfl
      · rw [hu]
        simp
    · have hdq := List.all_eq_true.mp h.2 d hd
      simpa using hdq

theorem data_toc_underscore (toc s : String) :
    (toc ++ "_" ++ s).data = toc.data ++ '_' :: s.data := by
  rcases toc with ⟨ltoc⟩
  rcases s with ⟨ls⟩
  show (String.mk (ltoc ++ ('_' :: [])) ++ String.mk ls).data = ltoc ++ '_' :: ls
  show ltoc ++ ('_' :: []) ++ ls = ltoc ++ '_' :: ls
  simp

theorem legal_concat_nulFree (toc s : String)
    (h : legal_identifier (toc ++ "_" ++ s) = true) :
    nulFree toc = true ∧ nulFree s = true := by
  have hall := legal_all_chars _ h
  rw [data_toc_underscore] at hall
  constructor
  · unfold nulFree
    rw [Bool.not_eq_true']
    rw [Bool.eq_false_iff]
    intro hc
    rw [List.contains_eq_any_beq] at hc
    rcases List.any_eq_true.mp hc with ⟨c, hc1, hc2⟩
    have hcn : c = nulChar := (eq_of_beq hc2).symm
    have hq := hall c (List.mem_append_left _ hc1)
    rw [hcn] at hq
    rw [show (nulChar.isAlphanum || nulChar == '_') = false from by decide] at hq
    cases hq
  · unfold nulFree
    rw [Bool.not_eq_true']
    rw [Bool.eq_false_iff]
    intro hc
    rw [List.contains_eq_any_beq] at hc
    rcases List.any_eq_true.mp hc with ⟨c, hc1, hc2⟩
    have hcn : c = nulChar := (eq_of_beq hc2).symm
    have hq := hall c (List.mem_append_right _ (List.mem_cons_of_mem _ hc1))
    rw [hcn] at hq
    rw [show (nulChar.isAlphanum || nulChar == '_') = false from by decide] at hq
    cases hq

theorem takeWhile_underscore_ne (ld : List Char) (tail : List Char) :
    ld.takeWhile (fun c => c != nulChar) ++ '_' :: tail ≠ ld := by
  induction ld with
  | nil => simp
  | cons c cs ih =>
    by_cases hc : (c != nulChar) = true
    · rw [List.takeWhile_cons, if_pos hc]
      intro he
      rw [List.cons_append] at he
      have hinj := List.cons.inj he
      exact absurd hinj.2 ih
    · rw [List.takeWhile_cons, if_neg hc]
      intro he
      rw [List.nil_append] at he
      have h1 := (List.cons.inj he).1
      have hceq : c = nulChar := by
        rw [Bool.not_eq_true] at hc
        simpa using hc
      exact absurd (h1.trans hceq) (by decide)

theorem secVarNameOf_ne_toc (toc s : String) : secVarNameOf toc s ≠ toc := by
  intro h
  have hd := congrArg String.data h
  unfold secVarNameOf at hd
  exact takeWhile_underscore_ne toc.data (cstrChars s) hd

theorem secVarNameOf_inj (toc s1 s2 : String) (h1 : nulFree s1 = true)
    (h2 : nulFree s2 = true) (h : secVarNameOf toc s1 = secVarNameOf toc s2) :
    s1 = s2 := by
  have hd := congrArg String.data h
  unfold secVarNameOf at hd
  rw [cstrChars_of_nulFree s1 h1, cstrChars_of_nulFree s2 h2] at hd
  have : '_' :: s1.data = '_' :: s2.data := List.append_cancel_left hd
  have : s1.data = s2.data := (List.cons.inj this).2
  rcases s1 with ⟨l1⟩
  rcases s2 with ⟨l2⟩
  exact congrArg String.mk this

/-! ### Lemmas about the specification mapping -/

theorem specKV_none_of_not_mem (r : List IniLine) (cur s k : String)
    (h1 : s ≠ cur) (h2 : s ∉ secNames r) : specKV cur r s k = none := by
  induction r generalizing cur with
  | nil => rfl
  | cons line rest ih =>
    cases line with
    | sec s2 =>
      have hs2 : s ≠ s2 := fun he => h2 (he ▸ List.mem_cons_self s2 (secNames rest))
      have hrest : s ∉ secNames rest := fun hm =>
        h2 (List.mem_cons_of_mem s2 hm)
      show specKV s2 rest s k = none
      exact ih s2 hs2 hrest
    | kv k1 v1 =>
      have hrest : s ∉ secNames rest := h2
      show (match specKV cur rest s k with
            | some v => some v
            | none => if cur = s ∧ k1 = k then some v1 else none) = none
      rw [ih cur h1 hrest]
      rw [if_neg (fun hc => h1 hc.1.symm)]

theorem specKV_kv_ne (cur s k k0 v0 : String) (rest : List IniLine) (h : cur ≠ s) :
    specKV cur (IniLine.kv k0 v0 :: rest) s k = specKV cur rest s k := by
  show (match specKV cur rest s k with
        | some v => some v
        | none => if cur = s ∧ k0 = k then some v0 else none) = specKV cur rest s k
  cases specKV cur rest s k with
  | some v => rfl
  | none => rw [if_neg (fun hc => h hc.1)]

/-! ### The main invariant of the parse loop (C1, C8)

Processing a well-formed suffix with legal section names succeeds and
its effect on the registry is: the TOC gains `s -> "true"` for each
section of the suffix, each section's table accumulates the suffix's
entries with last-write-wins on top of its previous contents, and no
other variable changes. -/

theorem orDefault_some (v : String) (d : Option String) :
    orDefault (some v) d = some v := rfl

theorem orDefault_none (d : Option String) : orDefault none d = d := rfl

theorem orDefault_none_right (o : Option String) : orDefault o none = o := by
  cases o <;> rfl

theorem secNames_sec (s1 : String) (rest : List IniLine) :
    secNames (IniLine.sec s1 :: rest) = s1 :: secNames rest := rfl

theorem secNames_kv (k v : String) (rest : List IniLine) :
    secNames (IniLine.kv k v :: rest) = secNames rest := rfl

theorem specKV_sec (cur s1 : String) (rest : List IniLine) (s k : String) :
    specKV cur (IniLine.sec s1 :: rest) s k = specKV s1 rest s k := rfl

theorem specKV_kv (cur k0 v0 : String) (rest : List IniLine) (s k : String) :
    specKV cur (IniLine.kv k0 v0 :: rest) s k
      = orDefault (specKV cur rest s k)
          (if cur = s ∧ k0 = k then some v0 else none) := by
  show (match specKV cur rest s k with
        | some v => some v
        | none => if cur = s ∧ k0 = k then some v0 else none)
      = orDefault (specKV cur rest s k) (if cur = s ∧ k0 = k then some v0 else none)
  cases hx : specKV cur rest s k with
  | some v => rfl
  | none => rfl

/-- How one entry event folds into the merged view of its section's
table. -/
theorem orDefault_kv_step (cur : String) (rest : List IniLine) (k0 v0 k : String)
    (A : List (String × String)) :
    orDefault (specKV cur rest cur k) (alookup (assocBind A k0 v0) k)
      = orDefault (specKV cur (IniLine.kv k0 v0 :: rest) cur k) (alookup A k) := by
  rw [specKV_kv]
  cases hx : specKV cur rest cur k with
  | some v => simp only [orDefault_some]
  | none =>
    simp only [orDefault_none]
    rw [alookup_assocBind]
    by_cases hk : k0 = k
    · subst hk
      simp [orDefault_some]
    · simp [hk, show ¬(k = k0) from fun h => hk h.symm, orDefault_none]

theorem parseLoop_contents (conf : IniConf) (rest : List IniLine) :
    ∀ (cursec : String) (seen : Bool) (n : Nat) (st : HState) (T : ShellVar),
    wfLines seen rest = true →
    (∀ s ∈ secNames rest,
      legal_identifier (secVarNameOf conf.toc_var_name s) = true ∧ nulFree s = true) →
    entriesNulFree rest = true →
    find_variable st.env conf.toc_var_name = some T →
    (seen = true →
      legal_identifier (secVarNameOf conf.toc_var_name cursec) = true ∧
      nulFree cursec = true ∧
      (find_variable st.env (secVarNameOf conf.toc_var_name cursec)).isSome = true) →
    ∃ st' : HState,
      parseLoop conf cursec n st rest = (st', none, false) ∧
      st'.errors = st.errors ∧
      (∃ T', find_variable st'.env conf.toc_var_name = some T' ∧
        T'.isLocal = T.isLocal ∧
        ∀ s, alookup T'.assoc s =
          if s ∈ secNames rest then some "true" else alookup T.assoc s) ∧
      (∀ s, (s ∈ secNames rest ∨ (seen = true ∧ s = cursec)) →
        ∃ V, find_variable st'.env (secVarNameOf conf.toc_var_name s) = some V ∧
          ((∃ W, find_variable st.env (secVarNameOf conf.toc_var_name s) = some W ∧
              V.isLocal = W.isLocal ∧
              ∀ k, alookup V.assoc k =
                orDefault (specKV cursec rest s k) (alookup W.assoc k)) ∨
            (find_variable st.env (secVarNameOf conf.toc_var_name s) = none ∧
              V.isLocal = conf.local_vars ∧
              ∀ k, alookup V.assoc k = specKV cursec rest s k))) ∧
      (∀ name, name ≠ conf.toc_var_name →
        (∀ s, (s ∈ secNames rest ∨ (seen = true ∧ s = cursec)) →
          name ≠ secVarNameOf conf.toc_var_name s) →
        find_variable st'.env name = find_variable st.env name) := by
  induction rest with
  | nil =>
    intro cursec seen n st T _ _ _ hfT hsec
    refine ⟨st, rfl, rfl, ⟨T, hfT, rfl, fun s => by simp [secNames]⟩, ?_, fun _ _ _ => rfl⟩
    intro s hs
    rcases hs with hs | ⟨hseen, rfl⟩
    · exact absurd hs (List.not_mem_nil s)
    · rcases hsec hseen with ⟨_, _, hsome⟩
      rcases Option.isSome_iff_exists.mp hsome with ⟨W, hW⟩
      exact ⟨W, hW, Or.inl ⟨W, hW, rfl, fun k => rfl⟩⟩
  | cons line rest ih =>
    intro cursec seen n st T hwf hlegAll hnul hfT hsec
    cases line with
    | sec s1 =>
      have hm1 : s1 ∈ secNames (IniLine.sec s1 :: rest) := List.mem_cons_self _ _
      rcases hlegAll s1 hm1 with ⟨hleg1, hnf1⟩
      have hwf2 : wfLines true rest = true := by simpa [wfLines] using hwf
      have hnul2 : entriesNulFree rest = true := by simpa [entriesNulFree] using hnul
      have hlegAll2 : ∀ s ∈ secNames rest,
          legal_identifier (secVarNameOf conf.toc_var_name s) = true ∧ nulFree s = true :=
        fun s hs => hlegAll s (List.mem_cons_of_mem _ hs)
      have hstep := handler_section_ok conf st s1 T hleg1 hfT
      rw [strdup_of_nulFree s1 hnf1] at hstep
      have hne_toc1 : conf.toc_var_name ≠ secVarNameOf conf.toc_var_name s1 :=
        fun he => secVarNameOf_ne_toc conf.toc_var_name s1 he.symm
      have hfT1 : find_variable
          (make_assoc_variable
            (bind_assoc_variable st.env conf.toc_var_name s1 "true")
            (secVarNameOf conf.toc_var_name s1) conf.local_vars)
          conf.toc_var_name
          = some ⟨T.name, T.isLocal, assocBind T.assoc s1 "true"⟩ := by
        rw [find_make_ne _ _ _ _ hne_toc1, find_bind_assoc_self, hfT]
        rfl
      have hsec1 : (true : Bool) = true →
          legal_identifier (secVarNameOf conf.toc_var_name s1) = true ∧
          nulFree s1 = true ∧
          (find_variable
            (make_assoc_variable
              (bind_assoc_variable st.env conf.toc_var_name s1 "true")
              (secVarNameOf conf.toc_var_name s1) conf.local_vars)
            (secVarNameOf conf.toc_var_name s1)).isSome = true :=
        fun _ => ⟨hleg1, hnf1, find_make_self _ _ _⟩
      rcases ih s1 true (n + 1)
          ⟨make_assoc_variable
            (bind_assoc_variable st.env conf.toc_var_name s1 "true")
            (secVarNameOf conf.toc_var_name s1) conf.local_vars, st.errors⟩
          ⟨T.name, T.isLocal, assocBind T.assoc s1 "true"⟩
          hwf2 hlegAll2 hnul2 hfT1 hsec1 with
        ⟨st', hloop, herr, ⟨T', hfT', hTloc, hTlook⟩, hsecs, huntouched⟩
      have htrans_ne : ∀ nm, nm ≠ conf.toc_var_name →
          nm ≠ secVarNameOf conf.toc_var_name s1 →
          find_variable
            (make_assoc_variable
              (bind_assoc_variable st.env conf.toc_var_name s1 "true")
              (secVarNameOf conf.toc_var_name s1) conf.local_vars) nm
            = find_variable st.env nm := by
        intro nm h1 h2
        rw [find_make_ne _ _ _ _ h2, find_bind_assoc_ne _ _ _ _ _ h1]
      refine ⟨st', ?_, herr, ?_, ?_, ?_⟩
      · simp only [parseLoop, hstep]
        exact hloop
      · refine ⟨T', hfT', hTloc, ?_⟩
        intro s
        rw [hTlook s]
        rw [secNames_sec]
        by_cases hs : s ∈ secNames rest
        · rw [if_pos hs, if_pos (List.mem_cons_of_mem _ hs)]
        · rw [if_neg hs]
          rw [show alookup (ShellVar.mk T.name T.isLocal
              (assocBind T.assoc s1 "true")).assoc s
              = alookup (assocBind T.assoc s1 "true") s from rfl]
          rw [alookup_assocBind]
          by_cases hs1 : s = s1
          · rw [if_pos hs1, if_pos (by rw [hs1]; exact List.mem_cons_self _ _)]
          · rw [if_neg hs1, if_neg (by
              intro hmem
              rcases List.mem_cons.mp hmem with h | h
              · exact hs1 h
              · exact hs h)]
      · -- section tables
        intro s hs
        by_cases hss1 : s = s1
        · subst hss1
          rcases hsecs s (Or.inr ⟨rfl, rfl⟩) with ⟨V, hV, hdich⟩
          refine ⟨V, hV, ?_⟩
          cases hfst : find_variable st.env (secVarNameOf conf.toc_var_name s) with
          | some W =>
            have hfe1 : find_variable
                (bind_assoc_variable st.env conf.toc_var_name s "true")
                (secVarNameOf conf.toc_var_name s) = some W := by
              rw [find_bind_assoc_ne _ _ _ _ _ (fun he => hne_toc1 he.symm)]
              exact hfst
            have henv2eq : make_assoc_variable
                (bind_assoc_variable st.env conf.toc_var_name s "true")
                (secVarNameOf conf.toc_var_name s) conf.local_vars
                = bind_assoc_variable st.env conf.toc_var_name s "true" := by
              unfold make_assoc_variable
              rw [if_pos (by rw [hfe1]; rfl)]
            have hfe2 : find_variable
                (make_assoc_variable
                  (bind_assoc_variable st.env conf.toc_var_name s "true")
                  (secVarNameOf conf.toc_var_name s) conf.local_vars)
                (secVarNameOf conf.toc_var_name s) = some W := by
              rw [henv2eq]
              exact hfe1
            rcases hdich with ⟨W2, hW2, hWloc, hWlook⟩ | ⟨hnone, _, _⟩
            · have hW3 : find_variable
                  (make_assoc_variable
                    (bind_assoc_variable st.env conf.toc_var_name s "true")
                    (secVarNameOf conf.toc_var_name s) conf.local_vars)
                  (secVarNameOf conf.toc_var_name s) = some W2 := hW2
              rw [hfe2] at hW3
              injection hW3 with hWW
              subst hWW
              refine Or.inl ⟨W, rfl, hWloc, ?_⟩
              intro k
              rw [specKV_sec]
              exact hWlook k
            · have hnone2 : find_variable
                  (make_assoc_variable
                    (bind_assoc_variable st.env conf.toc_var_name s "true")
                    (secVarNameOf conf.toc_var_name s) conf.local_vars)
                  (secVarNameOf conf.toc_var_name s) = none := hnone
              exact Option.noConfusion (hfe2.symm.trans hnone2)
          | none =>
            have hfe1 : find_variable
                (bind_assoc_variable st.env conf.toc_var_name s "true")
                (secVarNameOf conf.toc_var_name s) = none := by
              rw [find_bind_assoc_ne _ _ _ _ _ (fun he => hne_toc1 he.symm)]
              exact hfst
            have hfe2 : find_variable
                (make_assoc_variable
                  (bind_assoc_variable st.env conf.toc_var_name s "true")
                  (secVarNameOf conf.toc_var_name s) conf.local_vars)
                (secVarNameOf conf.toc_var_name s)
                = some ⟨secVarNameOf conf.toc_var_name s, conf.local_vars, []⟩ := by
              unfold make_assoc_variable
              rw [if_neg (by rw [hfe1]; simp)]
              simp [find_variable]
            rcases hdich with ⟨W2, hW2, hWloc, hWlook⟩ | ⟨hnone, _, _⟩
            · have hW3 : find_variable
                  (make_assoc_variable
                    (bind_assoc_variable st.env conf.toc_var_name s "true")
                    (secVarNameOf conf.toc_var_name s) conf.local_vars)
                  (secVarNameOf conf.toc_var_name s) = some W2 := hW2
              rw [hfe2] at hW3
              injection hW3 with hWW
              subst hWW
              refine Or.inr ⟨rfl, by rw [hWloc], ?_⟩
              intro k
              have hlk : alookup V.assoc k
                  = orDefault (specKV s rest s k)
                      (alookup ([] : List (String × String)) k) := hWlook k
              rw [show alookup ([] : List (String × String)) k = none from rfl] at hlk
              rw [orDefault_none_right] at hlk
              rw [specKV_sec]
              exact hlk
            · have hnone2 : find_variable
                  (make_assoc_variable
                    (bind_assoc_variable st.env conf.toc_var_name s "true")
                    (secVarNameOf conf.toc_var_name s) conf.local_vars)
                  (secVarNameOf conf.toc_var_name s) = none := hnone
              exact Option.noConfusion (hfe2.symm.trans hnone2)
        · -- s is not the new section
          have hcommon : s ∈ secNames rest →
              ∃ V, find_variable st'.env (secVarNameOf conf.toc_var_name s) = some V ∧
                ((∃ W, find_variable st.env (secVarNameOf conf.toc_var_name s) = some W ∧
                    V.isLocal = W.isLocal ∧
                    ∀ k, alookup V.assoc k =
                      orDefault (specKV cursec (IniLine.sec s1 :: rest) s k)
                        (alookup W.assoc k)) ∨
                  (find_variable st.env (secVarNameOf conf.toc_var_name s) = none ∧
                    V.isLocal = conf.local_vars ∧
                    ∀ k, alookup V.assoc k
                      = specKV cursec (IniLine.sec s1 :: rest) s k)) := by
            intro hsr
            rcases hlegAll2 s hsr with ⟨hlegs, hnfs⟩
            have hbn_ne : secVarNameOf conf.toc_var_name s
                ≠ secVarNameOf conf.toc_var_name s1 :=
              fun he => hss1 (secVarNameOf_inj _ _ _ hnfs hnf1 he)
            have hfe12 : find_variable
                (make_assoc_variable
                  (bind_assoc_variable st.env conf.toc_var_name s1 "true")
                  (secVarNameOf conf.toc_var_name s1) conf.local_vars)
                (secVarNameOf conf.toc_var_name s)
                = find_variable st.env (secVarNameOf conf.toc_var_name s) :=
              htrans_ne _ (secVarNameOf_ne_toc _ _) hbn_ne
            rcases hsecs s (Or.inl hsr) with ⟨V, hV, hdich⟩
            refine ⟨V, hV, ?_⟩
            rcases hdich with ⟨W, hW, hWloc, hWlook⟩ | ⟨hnone, hVloc, hVlook⟩
            · have hW2 : find_variable
                  (make_assoc_variable
                    (bind_assoc_variable st.env conf.toc_var_name s1 "true")
                    (secVarNameOf conf.toc_var_name s1) conf.local_vars)
                  (secVarNameOf conf.toc_var_name s) = some W := hW
              rw [hfe12] at hW2
              refine Or.inl ⟨W, hW2, hWloc, ?_⟩
              intro k
              rw [specKV_sec]
              exact hWlook k
            · have hnone2 : find_variable
                  (make_assoc_variable
                    (bind_assoc_variable st.env conf.toc_var_name s1 "true")
                    (secVarNameOf conf.toc_var_name s1) conf.local_vars)
                  (secVarNameOf conf.toc_var_name s) = none := hnone
              rw [hfe12] at hnone2
              refine Or.inr ⟨hnone2, hVloc, ?_⟩
              intro k
              rw [specKV_sec]
              exact hVlook k
          rcases hs with hs | ⟨hseen, hcur⟩
          · rcases List.mem_cons.mp hs with h | hsr
            · exact absurd h hss1
            · exact hcommon hsr
          · subst hcur
            by_cases hscr : s ∈ secNames rest
            · exact hcommon hscr
            · rcases hsec hseen with ⟨hlegc, hnfc, hsomec⟩
              rcases Option.isSome_iff_exists.mp hsomec with ⟨W, hW⟩
              have hno : ∀ s2, (s2 ∈ secNames rest ∨ ((true : Bool) = true ∧ s2 = s1)) →
                  secVarNameOf conf.toc_var_name s
                    ≠ secVarNameOf conf.toc_var_name s2 := by
                intro s2 hs2 he
                rcases hs2 with h | ⟨_, rfl⟩
                · rcases hlegAll2 s2 h with ⟨_, hnfs2⟩
                  exact hscr ((secVarNameOf_inj _ _ _ hnfc hnfs2 he) ▸ h)
                · exact hss1 (secVarNameOf_inj _ _ _ hnfc hnf1 he)
              have hfinal : find_variable st'.env (secVarNameOf conf.toc_var_name s)
                  = find_variable st.env (secVarNameOf conf.toc_var_name s) := by
                rw [huntouched _ (secVarNameOf_ne_toc _ _) hno]
                exact htrans_ne _ (secVarNameOf_ne_toc _ _)
                  (hno s1 (Or.inr ⟨rfl, rfl⟩))
              refine ⟨W, by rw [hfinal]; exact hW, Or.inl ⟨W, hW, rfl, ?_⟩⟩
              intro k
              rw [specKV_sec, specKV_none_of_not_mem rest s1 s k hss1 hscr,
                orDefault_none]
      · -- untouched names
        intro name hn1 hn2
        have hns1 : name ≠ secVarNameOf conf.toc_var_name s1 :=
          hn2 s1 (Or.inl (List.mem_cons_self _ _))
        have hno2 : ∀ s2, (s2 ∈ secNames rest ∨ ((true : Bool) = true ∧ s2 = s1)) →
            name ≠ secVarNameOf conf.toc_var_name s2 := by
          intro s2 hs2
          rcases hs2 with h | ⟨_, rfl⟩
          · exact hn2 s2 (Or.inl (List.mem_cons_of_mem _ h))
          · exact hns1
        rw [huntouched name hn1 hno2]
        exact htrans_ne name hn1 hns1
    | kv k0 v0 =>
      have hseen : seen = true := by
        cases seen
        · simp [wfLines] at hwf
        · rfl
      subst hseen
      rcases hsec rfl with ⟨hlegc, hnfc, hsomec⟩
      rcases Option.isSome_iff_exists.mp hsomec with ⟨W0, hW0⟩
      have hwf2 : wfLines true rest = true := by simpa [wfLines] using hwf
      have hknul : (nulFree k0 = true ∧ nulFree v0 = true) ∧ entriesNulFree rest = true := by
        rw [show entriesNulFree (IniLine.kv k0 v0 :: rest)
            = (nulFree k0 && nulFree v0 && entriesNulFree rest) from rfl] at hnul
        rw [Bool.and_eq_true, Bool.and_eq_true] at hnul
        exact hnul
      have hstep := handler_entry_ok conf st cursec k0 v0 W0 hlegc hW0
      rw [strdup_of_nulFree k0 hknul.1.1, strdup_of_nulFree v0 hknul.1.2] at hstep
      have hne_tocc : conf.toc_var_name ≠ secVarNameOf conf.toc_var_name cursec :=
        fun he => secVarNameOf_ne_toc conf.toc_var_name cursec he.symm
      have hfT1 : find_variable
          (bind_assoc_variable st.env (secVarNameOf conf.toc_var_name cursec) k0 v0)
          conf.toc_var_name = some T := by
        rw [find_bind_assoc_ne _ _ _ _ _ hne_tocc]
        exact hfT
      have hsec1 : (true : Bool) = true →
          legal_identifier (secVarNameOf conf.toc_var_name cursec) = true ∧
          nulFree cursec = true ∧
          (find_variable
            (bind_assoc_variable st.env (secVarNameOf conf.toc_var_name cursec) k0 v0)
            (secVarNameOf conf.toc_var_name cursec)).isSome = true :=
        fun _ => ⟨hlegc, hnfc, by rw [isSome_find_bind_assoc, hW0]; rfl⟩
      rcases ih cursec true (n + 1)
          ⟨bind_assoc_variable st.env (secVarNameOf conf.toc_var_name cursec) k0 v0,
            st.errors⟩ T hwf2 hlegAll hknul.2 hfT1 hsec1 with
        ⟨st', hloop, herr, hTOC, hsecs, huntouched⟩
      refine ⟨st', ?_, herr, ?_, ?_, ?_⟩
      · simp only [parseLoop, hstep]
        exact hloop
      · rcases hTOC with ⟨T', hfT', hTloc, hTlook⟩
        refine ⟨T', hfT', hTloc, ?_⟩
        intro s
        rw [hTlook s, secNames_kv]
      · -- section tables
        intro s hs
        have hs2 : s ∈ secNames rest ∨ ((true : Bool) = true ∧ s = cursec) := by
          rcases hs with h | h
          · exact Or.inl h
          · exact Or.inr h
        rcases hsecs s hs2 with ⟨V, hV, hdich⟩
        refine ⟨V, hV, ?_⟩
        by_cases hsc : s = cursec
        · subst hsc
          have hfe1 : find_variable
              (bind_assoc_variable st.env (secVarNameOf conf.toc_var_name s) k0 v0)
              (secVarNameOf conf.toc_var_name s)
              = some ⟨W0.name, W0.isLocal, assocBind W0.assoc k0 v0⟩ := by
            rw [find_bind_assoc_self, hW0]
            rfl
          rcases hdich with ⟨W2, hW2, hWloc, hWlook⟩ | ⟨hnone, _, _⟩
          · have hW3 : find_variable
                (bind_assoc_variable st.env (secVarNameOf conf.toc_var_name s) k0 v0)
                (secVarNameOf conf.toc_var_name s) = some W2 := hW2
            rw [hfe1] at hW3
            injection hW3 with hWW
            subst hWW
            refine Or.inl ⟨W0, hW0, hWloc, ?_⟩
            intro k
            have hlk : alookup V.assoc k
                = orDefault (specKV s rest s k)
                    (alookup (assocBind W0.assoc k0 v0) k) := hWlook k
            rw [orDefault_kv_step] at hlk
            exact hlk
          · have hnone2 : find_variable
                (bind_assoc_variable st.env (secVarNameOf conf.toc_var_name s) k0 v0)
                (secVarNameOf conf.toc_var_name s) = none := hnone
            exact Option.noConfusion (hfe1.symm.trans hnone2)
        · -- a different section: its table is untouched by this entry
          have hnfs : nulFree s = true := by
            rcases hs with hsr | ⟨_, hcurx⟩
            · exact (hlegAll s hsr).2
            · exact absurd hcurx hsc
          have hbn_ne : secVarNameOf conf.toc_var_name s
              ≠ secVarNameOf conf.toc_var_name cursec :=
            fun he => hsc (secVarNameOf_inj _ _ _ hnfs hnfc he)
          have hfe1 : find_variable
              (bind_assoc_variable st.env (secVarNameOf conf.toc_var_name cursec) k0 v0)
              (secVarNameOf conf.toc_var_name s)
              = find_variable st.env (secVarNameOf conf.toc_var_name s) :=
            find_bind_assoc_ne _ _ _ _ _ hbn_ne
          have hcursne : cursec ≠ s := fun he => hsc he.symm
          rcases hdich with ⟨W, hW, hWloc, hWlook⟩ | ⟨hnone, hVloc, hVlook⟩
          · have hW2 : find_variable
                (bind_assoc_variable st.env (secVarNameOf conf.toc_var_name cursec) k0 v0)
                (secVarNameOf conf.toc_var_name s) = some W := hW
            rw [hfe1] at hW2
            refine Or.inl ⟨W, hW2, hWloc, ?_⟩
            intro k
            rw [specKV_kv_ne cursec s k k0 v0 rest hcursne]
            exact hWlook k
          · have hnone2 : find_variable
                (bind_assoc_variable st.env (secVarNameOf conf.toc_var_name cursec) k0 v0)
                (secVarNameOf conf.toc_var_name s) = none := hnone
            rw [hfe1] at hnone2
            refine Or.inr ⟨hnone2, hVloc, ?_⟩
            intro k
            rw [specKV_kv_ne cursec s k k0 v0 rest hcursne]
            exact hVlook k
      · -- untouched names
        intro name hn1 hn2
        have hnc : name ≠ secVarNameOf conf.toc_var_name cursec :=
          hn2 cursec (Or.inr ⟨rfl, rfl⟩)
        have hn22 : ∀ s2, (s2 ∈ secNames rest ∨ ((true : Bool) = true ∧ s2 = cursec)) →
            name ≠ secVarNameOf conf.toc_var_name s2 := by
          intro s2 hs2
          rcases hs2 with h | h
          · exact hn2 s2 (Or.inl h)
          · exact hn2 s2 (Or.inr h)
        rw [huntouched name hn1 hn22]
        exact find_bind_assoc_ne _ _ _ _ _ hnc

/-! ### Invocation-level contents -/

theorem ini_builtin_contents (w : World) (ctx : Nat) (g : Bool) (toc : String)
    (doc : List IniLine) (env0 : Env)
    (hdoc : w.content 0 = some doc)
    (hwf : wfLines false doc = true)
    (hleg : ∀ s ∈ secNames doc, legal_identifier (toc ++ "_" ++ s) = true)
    (hnul : entriesNulFree doc = true) :
    ∃ T0, find_variable (make_assoc_variable env0 toc (decide (0 < ctx) && !g)) toc
        = some T0 ∧
      (ini_builtin w ctx env0 ⟨some toc, g, none⟩).status = some EXECUTION_SUCCESS ∧
      (ini_builtin w ctx env0 ⟨some toc, g, none⟩).errors = [] ∧
      (∃ T', find_variable (ini_builtin w ctx env0 ⟨some toc, g, none⟩).env toc
          = some T' ∧
        T'.isLocal = T0.isLocal ∧
        ∀ s, alookup T'.assoc s =
          if s ∈ secNames doc then some "true" else alookup T0.assoc s) ∧
      (∀ s ∈ secNames doc, ∃ V,
        find_variable (ini_builtin w ctx env0 ⟨some toc, g, none⟩).env
          (toc ++ "_" ++ s) = some V ∧
        ((∃ W, find_variable (make_assoc_variable env0 toc (decide (0 < ctx) && !g))
              (toc ++ "_" ++ s) = some W ∧
            V.isLocal = W.isLocal ∧
            ∀ k, alookup V.assoc k = orDefault (specKV "" doc s k) (alookup W.assoc k)) ∨
          (find_variable (make_assoc_variable env0 toc (decide (0 < ctx) && !g))
              (toc ++ "_" ++ s) = none ∧
            V.isLocal = (decide (0 < ctx) && !g) ∧
            ∀ k, alookup V.assoc k = specKV "" doc s k))) ∧
      (∀ name, name ≠ toc → (∀ s ∈ secNames doc, name ≠ toc ++ "_" ++ s) →
        find_variable (ini_builtin w ctx env0 ⟨some toc, g, none⟩).env name
          = find_variable (make_assoc_variable env0 toc (decide (0 < ctx) && !g)) name) := by
  -- names of sections in their two spellings
  have hname : ∀ s ∈ secNames doc, secVarNameOf toc s = toc ++ "_" ++ s ∧
      nulFree s = true := by
    intro s hs
    rcases legal_concat_nulFree toc s (hleg s hs) with ⟨hnt, hns⟩
    exact ⟨secVarNameOf_of_nulFree toc s hnt hns, hns⟩
  have hlegAll : ∀ s ∈ secNames doc,
      legal_identifier (secVarNameOf (IniConf.mk toc (decide (0 < ctx) && !g)).toc_var_name s)
        = true ∧ nulFree s = true := by
    intro s hs
    have h1 : secVarNameOf toc s = toc ++ "_" ++ s := (hname s hs).1
    refine ⟨?_, (hname s hs).2⟩
    show legal_identifier (secVarNameOf toc s) = true
    rw [h1]
    exact hleg s hs
  rcases Option.isSome_iff_exists.mp
      (find_make_self env0 toc (decide (0 < ctx) && !g)) with ⟨T0, hT0⟩
  have hfT0 : find_variable
      (HState.mk (make_assoc_variable env0 toc (decide (0 < ctx) && !g)) []).env
      (IniConf.mk toc (decide (0 < ctx) && !g)).toc_var_name = some T0 := hT0
  rcases parseLoop_contents (IniConf.mk toc (decide (0 < ctx) && !g)) doc "" false 1
      (HState.mk (make_assoc_variable env0 toc (decide (0 < ctx) && !g)) []) T0
      hwf hlegAll hnul hfT0 (fun h => Bool.noConfusion h) with
    ⟨st', hloop, herr, ⟨T', hfT', hTloc, hTlook⟩, hsecs, hunt⟩
  have hrun : ini_builtin w ctx env0 ⟨some toc, g, none⟩
      = RunResult.mk st'.env st'.errors (some EXECUTION_SUCCESS) false := by
    unfold ini_builtin
    simp only [fdCheck, hdoc, hloop]
    rw [if_neg (show ¬((0 : Int) < 0) from by decide)]
  refine ⟨T0, hT0, by rw [hrun], by rw [hrun]; exact herr, ?_, ?_, ?_⟩
  · refine ⟨T', by rw [hrun]; exact hfT', hTloc, hTlook⟩
  · intro s hs
    rcases hname s hs with ⟨heq, _⟩
    rcases hsecs s (Or.inl hs) with ⟨V, hV, hdich⟩
    refine ⟨V, ?_, ?_⟩
    · rw [hrun]
      show find_variable st'.env (toc ++ "_" ++ s) = some V
      rw [← heq]
      exact hV
    · rcases hdich with ⟨W, hW, hWloc, hWlook⟩ | ⟨hnone, hVloc, hVlook⟩
      · refine Or.inl ⟨W, ?_, hWloc, hWlook⟩
        have hW2 : find_variable (make_assoc_variable env0 toc (decide (0 < ctx) && !g))
            (secVarNameOf toc s) = some W := hW
        rw [heq] at hW2
        exact hW2
      · refine Or.inr ⟨?_, hVloc, hVlook⟩
        have hn2 : find_variable (make_assoc_variable env0 toc (decide (0 < ctx) && !g))
            (secVarNameOf toc s) = none := hnone
        rw [heq] at hn2
        exact hn2
  · intro name hn1 hn2
    rw [hrun]
    show find_variable st'.env name
      = find_variable (make_assoc_variable env0 toc (decide (0 < ctx) && !g)) name
    refine hunt name hn1 ?_
    intro s hs
    rcases hs with hs | ⟨hfalse, _⟩
    · have heq : secVarNameOf toc s = toc ++ "_" ++ s := (hname s hs).1
      show name ≠ secVarNameOf toc s
      rw [heq]
      exact hn2 s hs
    · exact absurd hfalse (by simp)

/-- C1: for every well-formed INI document (every entry under some
section header, every derived name `toc_section` a legal identifier,
C-string keys and values), a run with root name `toc` from a fresh
registry succeeds, the TOC array holds exactly one `"true"` entry per
distinct section name, and each child array `toc_section` holds exactly
that section's key/value pairs with last-write-wins on duplicate keys
(duplicate section names merge into the same child array). -/
theorem toc_and_sections_exact (w : World) (ctx : Nat) (g : Bool) (toc : String)
    (doc : List IniLine)
    (hdoc : w.content 0 = some doc)
    (hwf : wfLines false doc = true)
    (hleg : (secNames doc).all (fun s => legal_identifier (toc ++ "_" ++ s)) = true)
    (hnul : entriesNulFree doc = true) :
    (ini_builtin w ctx [] ⟨some toc, g, none⟩).status = some EXECUTION_SUCCESS ∧
    (∃ T, find_variable (ini_builtin w ctx [] ⟨some toc, g, none⟩).env toc = some T ∧
      ∀ s, alookup T.assoc s = if s ∈ secNames doc then some "true" else none) ∧
    (∀ s ∈ secNames doc, ∃ V,
      find_variable (ini_builtin w ctx [] ⟨some toc, g, none⟩).env (toc ++ "_" ++ s)
        = some V ∧
      ∀ k, alookup V.assoc k = specKV "" doc s k) := by
  have hlegF : ∀ s ∈ secNames doc, legal_identifier (toc ++ "_" ++ s) = true :=
    fun s hs => List.all_eq_true.mp hleg s hs
  rcases ini_builtin_contents w ctx g toc doc [] hdoc hwf hlegF hnul with
    ⟨T0, hT0, hstat, herrs, ⟨T', hfT', hTloc, hTlook⟩, hsecs, hunt⟩
  have hmk : make_assoc_variable ([] : Env) toc (decide (0 < ctx) && !g)
      = [⟨toc, decide (0 < ctx) && !g, []⟩] := rfl
  have hT0id : T0 = ⟨toc, decide (0 < ctx) && !g, []⟩ := by
    rw [hmk] at hT0
    have h2 : find_variable [(⟨toc, decide (0 < ctx) && !g, []⟩ : ShellVar)] toc
        = some ⟨toc, decide (0 < ctx) && !g, []⟩ := by
      show (if (ShellVar.mk toc (decide (0 < ctx) && !g) []).name = toc
          then some (ShellVar.mk toc (decide (0 < ctx) && !g) [])
          else find_variable [] toc)
        = some (ShellVar.mk toc (decide (0 < ctx) && !g) [])
      rw [if_pos rfl]
    rw [h2] at hT0
    injection hT0 with h
    exact h.symm
  refine ⟨hstat, ⟨T', hfT', ?_⟩, ?_⟩
  · intro s
    rw [hTlook s, hT0id]
    by_cases hs : s ∈ secNames doc
    · rw [if_pos hs, if_pos hs]
    · rw [if_neg hs, if_neg hs]
      rfl
  · intro s hs
    rcases legal_concat_nulFree toc s (hlegF s hs) with ⟨hnt, hns⟩
    have heqn : secVarNameOf toc s = toc ++ "_" ++ s :=
      secVarNameOf_of_nulFree toc s hnt hns
    have hnamene : toc ++ "_" ++ s ≠ toc := heqn ▸ secVarNameOf_ne_toc toc s
    have hnone_s : find_variable
        (make_assoc_variable ([] : Env) toc (decide (0 < ctx) && !g))
        (toc ++ "_" ++ s) = none := by
      rw [hmk]
      show (if (ShellVar.mk toc (decide (0 < ctx) && !g) []).name = toc ++ "_" ++ s
          then some (ShellVar.mk toc (decide (0 < ctx) && !g) [])
          else find_variable [] (toc ++ "_" ++ s)) = none
      rw [if_neg (fun he => hnamene he.symm)]
      rfl
    rcases hsecs s hs with ⟨V, hV, hdich⟩
    rcases hdich with ⟨W, hW, _, _⟩ | ⟨_, _, hVlook⟩
    · exact Option.noConfusion (hnone_s.symm.trans hW)
    · exact ⟨V, hV, hVlook⟩

theorem toc_and_sections_exact_witness :
    ((⟨fun _ => true, fun _ => some [IniLine.sec "sec1", IniLine.kv "foo" "bar",
        IniLine.sec "sec2", IniLine.kv "biz" "baz"]⟩ : World).content 0
      = some [IniLine.sec "sec1", IniLine.kv "foo" "bar",
        IniLine.sec "sec2", IniLine.kv "biz" "baz"] ∧
      wfLines false [IniLine.sec "sec1", IniLine.kv "foo" "bar",
        IniLine.sec "sec2", IniLine.kv "biz" "baz"] = true) ∧
    ((ini_builtin ⟨fun _ => true, fun _ => some [IniLine.sec "sec1",
        IniLine.kv "foo" "bar", IniLine.sec "sec2", IniLine.kv "biz" "baz"]⟩
        0 [] ⟨some "conf", false, none⟩).status = some EXECUTION_SUCCESS ∧
      (∃ T, find_variable (ini_builtin ⟨fun _ => true, fun _ => some [IniLine.sec "sec1",
          IniLine.kv "foo" "bar", IniLine.sec "sec2", IniLine.kv "biz" "baz"]⟩
          0 [] ⟨some "conf", false, none⟩).env "conf" = some T ∧
        ∀ s, alookup T.assoc s =
          if s ∈ secNames [IniLine.sec "sec1", IniLine.kv "foo" "bar",
            IniLine.sec "sec2", IniLine.kv "biz" "baz"] then some "true" else none) ∧
      (∀ s ∈ secNames [IniLine.sec "sec1", IniLine.kv "foo" "bar",
          IniLine.sec "sec2", IniLine.kv "biz" "baz"], ∃ V,
        find_variable (ini_builtin ⟨fun _ => true, fun _ => some [IniLine.sec "sec1",
          IniLine.kv "foo" "bar", IniLine.sec "sec2", IniLine.kv "biz" "baz"]⟩
          0 [] ⟨some "conf", false, none⟩).env ("conf" ++ "_" ++ s) = some V ∧
        ∀ k, alookup V.assoc k =
          specKV "" [IniLine.sec "sec1", IniLine.kv "foo" "bar",
            IniLine.sec "sec2", IniLine.kv "biz" "baz"] s k)) :=
  ⟨⟨rfl, by decide⟩,
    toc_and_sections_exact ⟨fun _ => true, fun _ => some [IniLine.sec "sec1",
        IniLine.kv "foo" "bar", IniLine.sec "sec2", IniLine.kv "biz" "baz"]⟩
      0 false "conf" [IniLine.sec "sec1", IniLine.kv "foo" "bar",
        IniLine.sec "sec2", IniLine.kv "biz" "baz"]
      rfl (by decide) (by decide) (by decide)⟩

theorem valueAt_of_find (env : Env) (name k : String) (sv : ShellVar)
    (h : find_variable env name = some sv) :
    valueAt env name k = alookup sv.assoc k := by
  unfold valueAt
  rw [h]

theorem valueAt_of_none (env : Env) (name k : String)
    (h : find_variable env name = none) :
    valueAt env name k = none := by
  unfold valueAt
  rw [h]

/-- C8: parsing the same well-formed document twice into the same root
name is idempotent — after the second run every variable exists exactly
when it did after the first, and every key of every variable holds the
same value (values are overwritten, not appended). -/
theorem reparse_idempotent (w : World) (ctx : Nat) (g : Bool) (toc : String)
    (doc : List IniLine)
    (hdoc : w.content 0 = some doc)
    (hwf : wfLines false doc = true)
    (hleg : (secNames doc).all (fun s => legal_identifier (toc ++ "_" ++ s)) = true)
    (hnul : entriesNulFree doc = true) :
    (∀ name,
      (find_variable (ini_builtin w ctx
          (ini_builtin w ctx [] ⟨some toc, g, none⟩).env ⟨some toc, g, none⟩).env
        name).isSome
      = (find_variable (ini_builtin w ctx [] ⟨some toc, g, none⟩).env name).isSome) ∧
    (∀ name k,
      valueAt (ini_builtin w ctx
          (ini_builtin w ctx [] ⟨some toc, g, none⟩).env ⟨some toc, g, none⟩).env
        name k
      = valueAt (ini_builtin w ctx [] ⟨some toc, g, none⟩).env name k) := by
  have hlegF : ∀ s ∈ secNames doc, legal_identifier (toc ++ "_" ++ s) = true :=
    fun s hs => List.all_eq_true.mp hleg s hs
  rcases ini_builtin_contents w ctx g toc doc [] hdoc hwf hlegF hnul with
    ⟨A0, hA0, _, _, ⟨T1, hfT1, _, hT1look⟩, hsecs1, hunt1⟩
  have hmk : make_assoc_variable ([] : Env) toc (decide (0 < ctx) && !g)
      = [⟨toc, decide (0 < ctx) && !g, []⟩] := rfl
  have hA0id : A0 = ⟨toc, decide (0 < ctx) && !g, []⟩ := by
    rw [hmk] at hA0
    have h2 : find_variable [(⟨toc, decide (0 < ctx) && !g, []⟩ : ShellVar)] toc
        = some ⟨toc, decide (0 < ctx) && !g, []⟩ := by
      show (if (ShellVar.mk toc (decide (0 < ctx) && !g) []).name = toc
          then some (ShellVar.mk toc (decide (0 < ctx) && !g) [])
          else find_variable [] toc)
        = some (ShellVar.mk toc (decide (0 < ctx) && !g) [])
      rw [if_pos rfl]
    rw [h2] at hA0
    injection hA0 with h
    exact h.symm
  -- first-run section tables hold exactly the document's mapping
  have hsecV1 : ∀ s ∈ secNames doc, ∃ V,
      find_variable (ini_builtin w ctx [] ⟨some toc, g, none⟩).env (toc ++ "_" ++ s)
        = some V ∧ ∀ k, alookup V.assoc k = specKV "" doc s k := by
    intro s hs
    rcases legal_concat_nulFree toc s (hlegF s hs) with ⟨hnt, hns⟩
    have heqn : secVarNameOf toc s = toc ++ "_" ++ s :=
      secVarNameOf_of_nulFree toc s hnt hns
    have hnamene : toc ++ "_" ++ s ≠ toc := heqn ▸ secVarNameOf_ne_toc toc s
    have hnone_s : find_variable
        (make_assoc_variable ([] : Env) toc (decide (0 < ctx) && !g))
        (toc ++ "_" ++ s) = none := by
      rw [hmk]
      show (if (ShellVar.mk toc (decide (0 < ctx) && !g) []).name = toc ++ "_" ++ s
          then some (ShellVar.mk toc (decide (0 < ctx) && !g) [])
          else find_variable [] (toc ++ "_" ++ s)) = none
      rw [if_neg (fun he => hnamene he.symm)]
      rfl
    rcases hsecs1 s hs with ⟨V, hV, hdich⟩
    rcases hdich with ⟨W, hW, _, _⟩ | ⟨_, _, hVlook⟩
    · exact Option.noConfusion (hnone_s.symm.trans hW)
    · exact ⟨V, hV, hVlook⟩
  -- every other variable is absent after the first run
  have hother1 : ∀ name, name ≠ toc →
      (∀ s ∈ secNames doc, name ≠ toc ++ "_" ++ s) →
      find_variable (ini_builtin w ctx [] ⟨some toc, g, none⟩).env name = none := by
    intro name h1 h2
    rw [hunt1 name h1 h2, hmk]
    show (if (ShellVar.mk toc (decide (0 < ctx) && !g) []).name = name
        then some (ShellVar.mk toc (decide (0 < ctx) && !g) [])
        else find_variable [] name) = none
    rw [if_neg (fun he => h1 he.symm)]
    rfl
  -- second run
  rcases ini_builtin_contents w ctx g toc doc
      (ini_builtin w ctx [] ⟨some toc, g, none⟩).env hdoc hwf hlegF hnul with
    ⟨B0, hB0, _, _, ⟨T2, hfT2, _, hT2look⟩, hsecs2, hunt2⟩
  have hmk2 : make_assoc_variable (ini_builtin w ctx [] ⟨some toc, g, none⟩).env toc
      (decide (0 < ctx) && !g) = (ini_builtin w ctx [] ⟨some toc, g, none⟩).env := by
    unfold make_assoc_variable
    rw [if_pos (by rw [hfT1]; rfl)]
  have hB0id : B0 = T1 := by
    rw [hmk2, hfT1] at hB0
    injection hB0 with h
    exact h.symm
  constructor
  · -- existence of variables is unchanged
    intro name
    by_cases h1 : name = toc
    · subst h1
      rw [hfT2, hfT1]
      rfl
    · by_cases h2 : ∃ s, s ∈ secNames doc ∧ name = toc ++ "_" ++ s
      · rcases h2 with ⟨s, hs, rfl⟩
        rcases hsecV1 s hs with ⟨V1, hV1, _⟩
        rcases hsecs2 s hs with ⟨V2, hV2, _⟩
        rw [hV1, hV2]
        rfl
      · have h2x : ∀ s ∈ secNames doc, name ≠ toc ++ "_" ++ s :=
          fun s hs he => h2 ⟨s, hs, he⟩
        rw [hunt2 name h1 h2x, hmk2]
  · -- values are unchanged
    intro name k
    by_cases h1 : name = toc
    · subst h1
      rw [valueAt_of_find _ _ _ _ hfT2, valueAt_of_find _ _ _ _ hfT1]
      rw [hT2look k, hB0id]
      by_cases hk : k ∈ secNames doc
      · rw [if_pos hk, hT1look k, if_pos hk]
      · rw [if_neg hk]
    · by_cases h2 : ∃ s, s ∈ secNames doc ∧ name = toc ++ "_" ++ s
      · rcases h2 with ⟨s, hs, rfl⟩
        rcases hsecV1 s hs with ⟨V1, hV1, hV1look⟩
        rcases hsecs2 s hs with ⟨V2, hV2, hdich2⟩
        rw [valueAt_of_find _ _ _ _ hV2, valueAt_of_find _ _ _ _ hV1]
        rcases hdich2 with ⟨W, hW, _, hWlook⟩ | ⟨hnone, _, _⟩
        · rw [hmk2, hV1] at hW
          injection hW with hWW
          subst hWW
          rw [hWlook k, hV1look k]
          cases hx : specKV "" doc s k with
          | some v => rfl
          | none => rfl
        · rw [hmk2, hV1] at hnone
          cases hnone
      · have h2x : ∀ s ∈ secNames doc, name ≠ toc ++ "_" ++ s :=
          fun s hs he => h2 ⟨s, hs, he⟩
        have hf2x : find_variable (ini_builtin w ctx
            (ini_builtin w ctx [] ⟨some toc, g, none⟩).env ⟨some toc, g, none⟩).env name
            = find_variable (ini_builtin w ctx [] ⟨some toc, g, none⟩).env name := by
          rw [hunt2 name h1 h2x, hmk2]
        unfold valueAt
        rw [hf2x]

theorem reparse_idempotent_witness :
    ((⟨fun _ => true, fun _ => some [IniLine.sec "s1", IniLine.kv "a" "b",
        IniLine.kv "a" "c"]⟩ : World).content 0
      = some [IniLine.sec "s1", IniLine.kv "a" "b", IniLine.kv "a" "c"] ∧
      wfLines false [IniLine.sec "s1", IniLine.kv "a" "b", IniLine.kv "a" "c"] = true) ∧
    ((∀ name,
      (find_variable (ini_builtin ⟨fun _ => true, fun _ => some [IniLine.sec "s1",
          IniLine.kv "a" "b", IniLine.kv "a" "c"]⟩ 1
          (ini_builtin ⟨fun _ => true, fun _ => some [IniLine.sec "s1",
            IniLine.kv "a" "b", IniLine.kv "a" "c"]⟩ 1 []
            ⟨some "conf", false, none⟩).env ⟨some "conf", false, none⟩).env
        name).isSome
      = (find_variable (ini_builtin ⟨fun _ => true, fun _ => some [IniLine.sec "s1",
          IniLine.kv "a" "b", IniLine.kv "a" "c"]⟩ 1 []
          ⟨some "conf", false, none⟩).env name).isSome) ∧
    (∀ name k,
      valueAt (ini_builtin ⟨fun _ => true, fun _ => some [IniLine.sec "s1",
          IniLine.kv "a" "b", IniLine.kv "a" "c"]⟩ 1
          (ini_builtin ⟨fun _ => true, fun _ => some [IniLine.sec "s1",
            IniLine.kv "a" "b", IniLine.kv "a" "c"]⟩ 1 []
            ⟨some "conf", false, none⟩).env ⟨some "conf", false, none⟩).env
        name k
      = valueAt (ini_builtin ⟨fun _ => true, fun _ => some [IniLine.sec "s1",
          IniLine.kv "a" "b", IniLine.kv "a" "c"]⟩ 1 []
          ⟨some "conf", false, none⟩).env name k)) :=
  ⟨⟨rfl, by decide⟩,
    reparse_idempotent ⟨fun _ => true, fun _ => some [IniLine.sec "s1",
        IniLine.kv "a" "b", IniLine.kv "a" "c"]⟩ 1 false "conf"
      [IniLine.sec "s1", IniLine.kv "a" "b", IniLine.kv "a" "c"]
      rfl (by decide) (by decide) (by decide)⟩

end BashIni
